import Mathlib

/-!
# Verification of the entropy-analyzer strategy subsystem

Shallow embedding of `entropy_analyzer/strategies/` (TextEntropy,
NumericalEntropy, SearchEngineEntropy, TimeEntropy, ContextualEntropy and
EntropyFactory) and proofs of the specified properties.

Modelling conventions:
* Python dynamic values are modelled by `PyVal`; Python floats by `PyFloat`
  (an exact rational plus the non-finite values `inf`, `-inf`, `nan`).
  Real arithmetic on finite doubles is modelled exactly over `ℚ`/`ℝ`.
* `scipy.stats.entropy` first normalizes its input vector by its sum and then
  sums `scipy.special.entr` over the entries, where `entr x = -x*log x` for
  `x > 0`, `0` for `x = 0` and `-inf` for `x < 0`.  The value `-inf` is
  modelled by `⊥ : WithBot ℝ`.  (For an input vector with nonpositive sum the
  library would produce NaN; no theorem below depends on that region.)
* A raised Python `ValueError` is modelled by `Except.error` carrying the
  message (Python's own quoting of interpolated values is not reproduced).
* `datetime.fromisoformat(...).timestamp()` is modelled for naive timestamps
  of the shapes `YYYY-MM-DD`, `YYYY-MM-DD*HH`, `YYYY-MM-DD*HH:MM` and
  `YYYY-MM-DD*HH:MM:SS` (CPython ≤ 3.10 ignores the separator character) at a
  fixed UTC offset; only interval differences enter the computation.
-/

namespace EntropyAnalyzer

/-- Model of a Python `float`: an exact rational, or one of the
non-finite IEEE values. -/
inductive PyFloat
  | finite (q : ℚ)
  | posInf
  | negInf
  | nan
deriving DecidableEq

/-- Model of the Python values the strategies can receive dynamically. -/
inductive PyVal
  | none
  | bool (b : Bool)
  | int (n : ℤ)
  | float (f : PyFloat)
  | str (s : String)
  | list (xs : List PyVal)

/-- Python `max` on a (nonempty) list of rationals; junk value `0` on `[]`. -/
def listMax : List ℚ → ℚ
  | [] => 0
  | x :: xs => xs.foldl max x

/-- Python `min` on a (nonempty) list of rationals; junk value `0` on `[]`. -/
def listMin : List ℚ → ℚ
  | [] => 0
  | x :: xs => xs.foldl min x

/-- `np.diff`: successive differences. -/
def listDiff : List ℚ → List ℚ
  | x :: y :: rest => (y - x) :: listDiff (y :: rest)
  | _ => []

/-- The literal `1e-10` used as epsilon padding (modelled as the exact
rational `10⁻¹⁰`). -/
def epsilon10 : ℚ := 1 / 10 ^ 10

/-- `scipy.special.entr`: `-x log x` for `x > 0`, `0` at `0`, `-inf`
(modelled by `⊥`) for negative arguments. -/
noncomputable def entr (x : ℝ) : WithBot ℝ :=
  if x < 0 then ⊥ else ((Real.negMulLog x : ℝ) : WithBot ℝ)

/-- Sum of `entr` over a rational vector (cast to `ℝ`). -/
noncomputable def entrSum (l : List ℚ) : WithBot ℝ :=
  (l.map (fun p : ℚ => entr (p : ℝ))).foldr (· + ·) (0 : WithBot ℝ)

/-- The normalization `pk = pk / sum(pk)` performed inside
`scipy.stats.entropy`. -/
def normalizePk (pk : List ℚ) : List ℚ := pk.map (fun p => p / pk.sum)

/-- `scipy.stats.entropy(pk)` (natural logarithm): normalize by the sum,
then sum `entr` over the entries. -/
noncomputable def scipyEntropy (pk : List ℚ) : WithBot ℝ := entrSum (normalizePk pk)

/-- `scipy.stats.entropy(pk, base=2)`: the natural-log value divided by
`log 2`. -/
noncomputable def scipyEntropyBase2 (pk : List ℚ) : WithBot ℝ :=
  (scipyEntropy pk).map (fun s => s / Real.log 2)

/-! ## TextEntropy (`strategies/text_entropy.py`) -/

/-- The distinct elements of a list in first-occurrence order
(iteration order of `collections.Counter`). -/
def counterKeys (l : List Char) : List Char :=
  l.foldl (fun acc c => if c ∈ acc then acc else acc ++ [c]) []

/-- `probs = [count / len(text) for count in Counter(text).values()]`. -/
def charProbs (s : String) : List ℚ :=
  (counterKeys s.toList).map (fun c => (s.toList.count c : ℚ) / (s.toList.length : ℚ))

/-- `TextEntropy.compute_entropy`. -/
noncomputable def textComputeEntropy : PyVal → Except String (WithBot ℝ)
  | .none => .ok 0
  | .str s =>
    if s = "" then .ok 0
    else .ok (min 1 ((scipyEntropyBase2 (charProbs s)).map (fun h => h / 8)))
  | _ => .error "Input must be a string or None"

/-! ## ContextualEntropy (`strategies/contextual_entropy.py`)

The external judge call plus the `float(...)` parse of its reply is the
environment of the strategy; its outcome is passed as the parameter
`judge`: `some x` means the whole `try` block up to the division produced
the number `x`, `none` means some exception was raised (network failure,
timeout, malformed or non-numeric reply). -/

/-- `ContextualEntropy.compute_entropy`, parametrized by the outcome of the
external call. -/
noncomputable def contextualComputeEntropy (judge : Option ℚ) : PyVal → Except String (WithBot ℝ)
  | .none => .ok 0
  | .str s =>
    if s = "" then .ok 0
    else
      match judge with
      | some x => .ok (((x : ℝ) / 10 : ℝ) : WithBot ℝ)
      | Option.none => textComputeEntropy (.str s)
  | _ => .error "Input must be a string or None"

/-! ## NumericalEntropy (`strategies/numerical_entropy.py`)

`np.histogram(np.array(numbers), bins="auto", density=True)` is modelled
following numpy's `_get_bin_edges`/`_hist_bin_auto`: the bin width is the
minimum of the Freedman–Diaconis and Sturges estimates (Sturges alone when
the FD width is zero), the edges span `[min, max]` (expanded by ±0.5 when
all values coincide), the number of equal bins is `int(ceil(range/width))`
(`1` when the width is zero), and the density of a bin is
`count / (len(numbers) * binwidth)`. -/

/-- `isinstance(n, (int, float))`; Python `bool` is a subtype of `int`. -/
def isPyNumber : PyVal → Bool
  | .int _ => true
  | .bool _ => true
  | .float _ => true
  | _ => false

/-- `float(n)`: numeric widening to double (junk value `0.0` on
non-numbers, which the caller has already ruled out). -/
def pyWiden : PyVal → PyFloat
  | .int n => .finite (n : ℚ)
  | .bool b => .finite (if b then 1 else 0)
  | .float f => f
  | _ => .finite 0

/-- `np.isfinite`. -/
def PyFloat.isFinite : PyFloat → Bool
  | .finite _ => true
  | _ => false

/-- The rational value of a finite Python float (junk `0` on non-finite). -/
def PyFloat.val : PyFloat → ℚ
  | .finite q => q
  | _ => 0

/-- `np.percentile(l, q)` with the default linear interpolation: index
`q/100 * (n-1)` into the ascending sort, interpolating between the two
neighbouring order statistics. -/
def percentile (l : List ℚ) (q : ℚ) : ℚ :=
  let a := List.insertionSort (fun x y => x ≤ y) l
  let idx : ℚ := q * ((l.length : ℚ) - 1) / 100
  let i : ℕ := (Int.floor idx).toNat
  let lo := a.getD i 0
  let hi := a.getD (i + 1) lo
  lo + (idx - (Int.floor idx : ℚ)) * (hi - lo)

/-- numpy `_hist_bin_fd`: `2 * IQR * n^(-1/3)`. -/
noncomputable def histBinFd (l : List ℚ) : ℝ :=
  2 * ((percentile l 75 - percentile l 25 : ℚ) : ℝ) * (l.length : ℝ) ^ (-(1 : ℝ) / 3)

/-- numpy `_hist_bin_sturges`: `ptp(x) / (log2(n) + 1)`. -/
noncomputable def histBinSturges (l : List ℚ) : ℝ :=
  ((listMax l - listMin l : ℚ) : ℝ) / (Real.logb 2 (l.length : ℝ) + 1)

/-- numpy `_hist_bin_auto`: `min(fd, sturges)` when the FD width is
nonzero, otherwise the Sturges width. -/
noncomputable def histBinAuto (l : List ℚ) : ℝ :=
  if histBinFd l ≠ 0 then min (histBinFd l) (histBinSturges l) else histBinSturges l

/-- numpy `_get_outer_edges`: `[min, max]`, expanded to `[v-0.5, v+0.5]`
when all values are equal. -/
def histogramEdges (l : List ℚ) : ℚ × ℚ :=
  let lo := listMin l
  let hi := listMax l
  if lo = hi then (lo - 1 / 2, lo + 1 / 2) else (lo, hi)

/-- `n_equal_bins = int(np.ceil((last - first) / width))` when the
estimated width is nonzero, else `1`. -/
noncomputable def histogramNBins (l : List ℚ) : ℕ :=
  let e := histogramEdges l
  if histBinAuto l ≠ 0 then
    (Int.ceil (((e.2 - e.1 : ℚ) : ℝ) / histBinAuto l)).toNat
  else 1

/-- Index of the equal-width bin a value falls into: `⌊n (x - lo) / (hi - lo)⌋`,
with the last edge inclusive (exact-arithmetic semantics of numpy's
block-based counting). -/
def binIndex (nbins : ℕ) (first last x : ℚ) : ℕ :=
  min (Int.floor ((nbins : ℚ) * (x - first) / (last - first))).toNat (nbins - 1)

/-- `np.histogram(..., bins="auto", density=True)`: per-bin densities
`count / (n * binwidth)`. -/
noncomputable def histogramDensities (l : List ℚ) : List ℚ :=
  let e := histogramEdges l
  let nbins := histogramNBins l
  let db := (e.2 - e.1) / (nbins : ℚ)
  (List.range nbins).map (fun i =>
    ((l.filter (fun x => binIndex nbins e.1 e.2 x = i)).length : ℚ)
      / ((l.length : ℚ) * db))

/-- `NumericalEntropy.compute_entropy`. -/
noncomputable def numericalComputeEntropy : PyVal → Except String (WithBot ℝ)
  | .none => .ok 0
  | .list xs =>
    if xs.isEmpty then .ok 0
    else if ¬ xs.all isPyNumber then .error "All elements must be numbers"
    else
      let fs := xs.map pyWiden
      if ¬ fs.all PyFloat.isFinite then .error "Input contains non-finite values"
      else
        let qs := fs.map PyFloat.val
        if qs.length < 2 then .ok 0
        else
          .ok (min 1 ((scipyEntropy ((histogramDensities qs).map (· + epsilon10))).map
            (fun h => h / 8)))
  | _ => .error "Input must be a list of numbers or None"

/-! ## SearchEngineEntropy (`strategies/search_entropy.py`)

`TfidfVectorizer(min_df=1, analyzer="char_wb", ngram_range=(2, 3))` with
sklearn defaults: lowercasing, word-boundary-padded character 2- and
3-grams, vocabulary = sorted set of n-grams, smoothed idf
`ln((1+n)/(1+df)) + 1`, and l2-normalized rows.  `fit_transform` raises
`ValueError` when the vocabulary is empty. -/

def isPyStr : PyVal → Bool
  | .str _ => true
  | _ => false

def pyStrVal : PyVal → String
  | .str s => s
  | _ => ""

/-- Accumulator-based splitting of a character list into maximal
whitespace-free words; `acc` holds the current word reversed. -/
def splitWordsAux : List Char → List Char → List (List Char)
  | [], acc => if acc.isEmpty then [] else [acc.reverse]
  | c :: rest, acc =>
    if c.isWhitespace then
      if acc.isEmpty then splitWordsAux rest [] else acc.reverse :: splitWordsAux rest []
    else splitWordsAux rest (c :: acc)

/-- Python `str.split()`: the maximal whitespace-free words. -/
def splitWords (l : List Char) : List (List Char) := splitWordsAux l []

/-- All contiguous slices of length `n`. -/
def ngramSlices (l : List Char) (n : ℕ) : List (List Char) :=
  (List.range (l.length - n + 1)).map (fun i => (l.drop i).take n)

/-- sklearn `_char_wb_ngrams` for `ngram_range=(2, 3)` after the default
lowercasing preprocessing: each whitespace-delimited word is padded with
one space on each side and all its 2-grams and then 3-grams are emitted. -/
def charWbNgrams (s : String) : List String :=
  (splitWords (s.toList.map Char.toLower)).flatMap (fun w =>
    let p := ' ' :: (w ++ [' '])
    (ngramSlices p 2 ++ ngramSlices p 3).map List.asString)

/-- The fitted vocabulary: the sorted set of all n-grams of all documents. -/
def vocabulary (docs : List String) : List String :=
  List.insertionSort (fun x y => x ≤ y) (docs.flatMap charWbNgrams).dedup

/-- Document frequency of a term. -/
def dfCount (docs : List String) (t : String) : ℕ :=
  (docs.filter (fun d => (charWbNgrams d).contains t)).length

/-- Smoothed idf (`smooth_idf=True`): `ln((1 + n) / (1 + df)) + 1`. -/
noncomputable def idf (docs : List String) (t : String) : ℝ :=
  Real.log ((1 + (docs.length : ℝ)) / (1 + (dfCount docs t : ℝ))) + 1

/-- Unnormalized tf-idf row of one document over the vocabulary. -/
noncomputable def tfidfRow (docs : List String) (d : String) : List ℝ :=
  (vocabulary docs).map (fun t => ((charWbNgrams d).count t : ℝ) * idf docs t)

/-- l2 row normalization (rows of norm zero are left unchanged). -/
noncomputable def l2normalize (r : List ℝ) : List ℝ :=
  let n := Real.sqrt ((r.map (fun x => x ^ 2)).sum)
  if n = 0 then r else r.map (fun x => x / n)

/-- `np.mean` of a list (junk `0/0 = 0` on `[]`). -/
noncomputable def listMeanR (l : List ℝ) : ℝ := l.sum / (l.length : ℝ)

/-- `np.std` (population standard deviation, `ddof=0`). -/
noncomputable def popStd (l : List ℝ) : ℝ :=
  Real.sqrt ((l.map (fun x => (x - listMeanR l) ^ 2)).sum / (l.length : ℝ))

/-- `SearchEngineEntropy.compute_entropy`. -/
noncomputable def searchComputeEntropy : PyVal → Except String ℝ
  | .none => .ok 0
  | .list xs =>
    if xs.isEmpty then .ok 0
    else if ¬ xs.all isPyStr then .error "All elements must be strings"
    else
      let docs := xs.map pyStrVal
      if docs.dedup.length = 1 then .ok 0
      else
        let voc := vocabulary docs
        if voc.isEmpty then
          .error "empty vocabulary; perhaps the documents only contain stop words"
        else
          let rows := docs.map (fun d => l2normalize (tfidfRow docs d))
          let scores := (List.range voc.length).map
            (fun j => popStd (rows.map (fun r => r.getD j 0)))
          .ok (min 1 (if scores.length ≠ 0 then listMeanR scores else 0))
  | _ => .error "Input must be a list of strings or None"

/-! ## TimeEntropy (`strategies/time_entropy.py`) -/

/-- Gregorian leap-year test. -/
def isLeapYear (y : ℤ) : Bool := (y % 4 == 0 && y % 100 != 0) || y % 400 == 0

/-- Days in a month of a given year. -/
def daysInMonth (y : ℤ) (m : ℕ) : ℕ :=
  if m = 2 then (if isLeapYear y then 29 else 28)
  else if m = 4 ∨ m = 6 ∨ m = 9 ∨ m = 11 then 30
  else 31

/-- Days since 1970-01-01 of a Gregorian civil date
(Hinnant's `days_from_civil`). -/
def daysFromCivil (y : ℤ) (m d : ℕ) : ℤ :=
  let y' : ℤ := if m ≤ 2 then y - 1 else y
  let era : ℤ := Int.fdiv y' 400
  let yoe : ℤ := y' - era * 400
  let mp : ℤ := ((m : ℤ) + 9) % 12
  let doy : ℤ := Int.ediv (153 * mp + 2) 5 + (d : ℤ) - 1
  let doe : ℤ := yoe * 365 + Int.ediv yoe 4 - Int.ediv yoe 100 + doy
  era * 146097 + doe - 719468

/-- Epoch seconds of a civil date-time (fixed UTC offset; see header note). -/
def epochSeconds (y : ℤ) (m d hh mm ss : ℕ) : ℤ :=
  daysFromCivil y m d * 86400 + hh * 3600 + mm * 60 + ss

/-- Numeric value of a decimal digit. -/
def digitVal (c : Char) : Option ℕ :=
  if c.isDigit then some (c.toNat - 48) else Option.none

/-- Two-digit number. -/
def num2 (a b : Char) : Option ℕ := do
  pure ((← digitVal a) * 10 + (← digitVal b))

/-- Four-digit number. -/
def num4 (a b c d : Char) : Option ℕ := do
  pure (((← digitVal a) * 10 + (← digitVal b)) * 100 + ((← digitVal c) * 10 + (← digitVal d)))

/-- `YYYY-MM-DD` with calendar validation (year ≥ 1 as in CPython). -/
def parseDatePart : List Char → Option (ℤ × ℕ × ℕ)
  | [y1, y2, y3, y4, '-', m1, m2, '-', d1, d2] => do
    let y ← num4 y1 y2 y3 y4
    let m ← num2 m1 m2
    let d ← num2 d1 d2
    if 1 ≤ y ∧ 1 ≤ m ∧ m ≤ 12 ∧ 1 ≤ d ∧ d ≤ daysInMonth (y : ℤ) m then
      pure ((y : ℤ), m, d)
    else Option.none
  | _ => Option.none

/-- `HH`, `HH:MM` or `HH:MM:SS` with range validation. -/
def parseTimePart : List Char → Option (ℕ × ℕ × ℕ)
  | [h1, h2] => do
    let hh ← num2 h1 h2
    if hh ≤ 23 then pure (hh, 0, 0) else Option.none
  | [h1, h2, ':', m1, m2] => do
    let hh ← num2 h1 h2
    let mm ← num2 m1 m2
    if hh ≤ 23 ∧ mm ≤ 59 then pure (hh, mm, 0) else Option.none
  | [h1, h2, ':', m1, m2, ':', s1, s2] => do
    let hh ← num2 h1 h2
    let mm ← num2 m1 m2
    let ss ← num2 s1 s2
    if hh ≤ 23 ∧ mm ≤ 59 ∧ ss ≤ 59 then pure (hh, mm, ss) else Option.none
  | _ => Option.none

/-- `datetime.fromisoformat(s).timestamp()` on the supported subset. -/
def parseTimestamp (s : String) : Option ℚ :=
  let cs := s.toList
  match parseDatePart (cs.take 10) with
  | Option.none => Option.none
  | some (y, m, d) =>
    match cs.drop 10 with
    | [] => some ((epochSeconds y m d 0 0 0 : ℤ) : ℚ)
    | _ :: timePart =>
      match parseTimePart timePart with
      | some (hh, mm, ss) => some ((epochSeconds y m d hh mm ss : ℤ) : ℚ)
      | Option.none => Option.none

/-- The conversion loop of `TimeEntropy.compute_entropy`: the first
non-string element or unparseable timestamp raises. -/
def parseTimes : List PyVal → Except String (List ℚ)
  | [] => .ok []
  | .str s :: rest =>
    match parseTimestamp s with
    | some t => (parseTimes rest).map (fun ts => t :: ts)
    | Option.none => .error ("Invalid isoformat string: " ++ s)
  | _ :: _ => .error "All elements must be timestamp strings"

/-- `TimeEntropy.compute_entropy`. -/
noncomputable def timeComputeEntropy : PyVal → Except String (WithBot ℝ)
  | .none => .ok 0
  | .list xs =>
    if xs.isEmpty then .ok 0
    else
      match parseTimes xs with
      | .error m => .error m
      | .ok times =>
        if times.length < 2 then .ok 0
        else
          let intervals := listDiff times
          let irange := listMax intervals - listMin intervals
          if irange = 0 then .ok 0
          else
            .ok (min 1 ((scipyEntropy ((intervals.map (fun i => i / irange)).map
              (· + epsilon10))).map (fun h => h / 8)))
  | _ => .error "Input must be a list of timestamp strings or None"

/-- The Shannon formula `∑ -vᵢ ln vᵢ` applied to a vector as-is (no
normalization).  This is the entropy step as the specification words it;
`scipyEntropy` is this sum taken after the library's internal
re-normalization `normalizePk`. -/
noncomputable def rawShannonSum (pk : List ℚ) : ℝ :=
  (pk.map (fun p : ℚ => Real.negMulLog (p : ℝ))).sum

/-- Modelled from the spec: "compute Shannon entropy over the resulting
vector (not a true probability distribution — it is not re-normalized to
sum to 1)".  A variant of `TimeEntropy.compute_entropy` whose entropy step
applies the Shannon formula directly to the epsilon-padded
range-normalized interval vector, without the internal re-normalization
that `scipy.stats.entropy` performs. -/
noncomputable def timeComputeEntropySpecRaw : PyVal → Except String (WithBot ℝ)
  | .none => .ok 0
  | .list xs =>
    if xs.isEmpty then .ok 0
    else
      match parseTimes xs with
      | .error m => .error m
      | .ok times =>
        if times.length < 2 then .ok 0
        else
          let intervals := listDiff times
          let irange := listMax intervals - listMin intervals
          if irange = 0 then .ok 0
          else
            .ok (min 1 (((rawShannonSum ((intervals.map (fun i => i / irange)).map
              (· + epsilon10)) / 8 : ℝ) : WithBot ℝ)))
  | _ => .error "Input must be a list of timestamp strings or None"

/-! ## Input-shape predicates (from the specification's wording) -/

/-- Valid shape for `TextEntropy`/`ContextualEntropy`: an optional string. -/
def isValidTextInput : PyVal → Bool
  | .none => true
  | .str _ => true
  | _ => false

/-- Valid shape for `NumericalEntropy`: `None` or a list of finite numbers
(Python booleans are numbers). -/
def isValidNumericalInput : PyVal → Bool
  | .none => true
  | .list xs => xs.all (fun x => isPyNumber x && (pyWiden x).isFinite)
  | _ => false

/-- Valid shape for `SearchEngineEntropy`: `None` or a list of strings. -/
def isValidSearchInput : PyVal → Bool
  | .none => true
  | .list xs => xs.all isPyStr
  | _ => false

/-- Valid shape for `TimeEntropy`: `None` or a list of parseable
timestamp strings. -/
def isValidTimeInput : PyVal → Bool
  | .none => true
  | .list xs => xs.all (fun x => isPyStr x && (parseTimestamp (pyStrVal x)).isSome)
  | _ => false

/-- The string contains at least one non-whitespace character (hence the
vectorizer extracts at least one n-gram from it). -/
def hasNonWs (s : String) : Bool := s.toList.any (fun c => ¬ c.isWhitespace)

/-- Side condition under which the vectorizer's fit cannot fail: either
all strings are identical (short-circuit) or some string has lexical
content. -/
def searchScorable : PyVal → Bool
  | .list xs => ((xs.map pyStrVal).dedup.length = 1) || xs.any (fun x => hasNonWs (pyStrVal x))
  | _ => true

/-- A rational list is nondecreasing. -/
def isNondecreasing : List ℚ → Bool
  | x :: y :: rest => x ≤ y && isNondecreasing (y :: rest)
  | _ => true

/-- Side condition for `TimeEntropy`: the timestamps arrive in
chronological (nondecreasing) order. -/
def timesSorted : PyVal → Bool
  | .list xs => isNondecreasing (xs.filterMap (fun x => parseTimestamp (pyStrVal x)))
  | _ => true

/-- The judge outcome is either a failure or a rating within the
instructed 0–10 scale. -/
def judgeInRange : Option ℚ → Bool
  | Option.none => true
  | some x => decide (0 ≤ x) && decide (x ≤ 10)

/-- The call returned (no exception) a real score inside `[0, 1]`. -/
def okInUnit (res : Except String (WithBot ℝ)) : Prop :=
  ∃ r : ℝ, res = .ok ((r : ℝ) : WithBot ℝ) ∧ 0 ≤ r ∧ r ≤ 1

/-- Same as `okInUnit` for the real-valued result type. -/
def okInUnitR (res : Except String ℝ) : Prop :=
  ∃ r : ℝ, res = .ok r ∧ 0 ≤ r ∧ r ≤ 1

/-! ## EntropyFactory (`strategies/entropy_strategy_factory.py`) -/

/-- The five strategy variants the factory can return. -/
inductive StrategyTag
  | text
  | numerical
  | search
  | contextual
  | time
deriving DecidableEq

/-- `EntropyFactory.get_entropy_calculator`. -/
def getEntropyCalculator : PyVal → Except String StrategyTag
  | .str s =>
    if s = "text" then .ok .text
    else if s = "numerical" then .ok .numerical
    else if s = "search" then .ok .search
    else if s = "contextual" then .ok .contextual
    else if s = "time" then .ok .time
    else .error ("Invalid Strategy Type: " ++ s)
  | _ => .error "Strategy type must be a string"

/-! ## General lemmas about the model -/

theorem foldl_max_init_le (l : List ℚ) (b : ℚ) : b ≤ l.foldl max b := by
  induction l generalizing b with
  | nil => exact le_refl b
  | cons x xs ih => exact le_trans (le_max_left b x) (ih (max b x))

theorem le_foldl_max {l : List ℚ} {x : ℚ} (hx : x ∈ l) (b : ℚ) : x ≤ l.foldl max b := by
  induction l generalizing b with
  | nil => cases hx
  | cons y ys ih =>
    rcases List.mem_cons.mp hx with rfl | h
    · exact le_trans (le_max_right b x) (foldl_max_init_le ys (max b x))
    · exact ih h (max b y)

theorem le_listMax {l : List ℚ} {x : ℚ} (hx : x ∈ l) : x ≤ listMax l := by
  match l, hx with
  | y :: ys, hx =>
    rcases List.mem_cons.mp hx with rfl | h
    · exact foldl_max_init_le ys x
    · exact le_foldl_max h y

theorem foldl_min_init_le (l : List ℚ) (b : ℚ) : l.foldl min b ≤ b := by
  induction l generalizing b with
  | nil => exact le_refl b
  | cons x xs ih => exact le_trans (ih (min b x)) (min_le_left b x)

theorem foldl_min_le {l : List ℚ} {x : ℚ} (hx : x ∈ l) (b : ℚ) : l.foldl min b ≤ x := by
  induction l generalizing b with
  | nil => cases hx
  | cons y ys ih =>
    rcases List.mem_cons.mp hx with rfl | h
    · exact le_trans (foldl_min_init_le ys (min b x)) (min_le_right b x)
    · exact ih h (min b y)

theorem listMin_le {l : List ℚ} {x : ℚ} (hx : x ∈ l) : listMin l ≤ x := by
  match l, hx with
  | y :: ys, hx =>
    rcases List.mem_cons.mp hx with rfl | h
    · exact foldl_min_init_le ys x
    · exact foldl_min_le h y

theorem listMin_le_listMax {l : List ℚ} (h : l ≠ []) : listMin l ≤ listMax l := by
  match l, h with
  | y :: ys, _ => exact le_trans (listMin_le (List.mem_cons_self y ys)) (le_listMax (List.mem_cons_self y ys))

theorem listDiff_length (l : List ℚ) : (listDiff l).length = l.length - 1 := by
  match l with
  | [] => rfl
  | [x] => rfl
  | x :: y :: rest =>
    show (listDiff (y :: rest)).length + 1 = (y :: rest).length + 1 - 1
    rw [listDiff_length (y :: rest)]
    simp [List.length_cons]

theorem listDiff_nonneg_of_sorted {l : List ℚ} (h : isNondecreasing l = true) :
    ∀ d ∈ listDiff l, 0 ≤ d := by
  match l with
  | [] => intro d hd; cases hd
  | [x] => intro d hd; cases hd
  | x :: y :: rest =>
    intro d hd
    rw [show isNondecreasing (x :: y :: rest) = (decide (x ≤ y) && isNondecreasing (y :: rest))
      from rfl, Bool.and_eq_true, decide_eq_true_eq] at h
    rcases List.mem_cons.mp hd with rfl | hmem
    · linarith [h.1]
    · exact listDiff_nonneg_of_sorted h.2 d hmem

/-- On a nonnegative vector, `entr` never hits `-inf`, and the fold is the
real `rawShannonSum`. -/
theorem entrSum_coe_of_nonneg {l : List ℚ} (h : ∀ p ∈ l, 0 ≤ p) :
    entrSum l = ((rawShannonSum l : ℝ) : WithBot ℝ) := by
  induction l with
  | nil =>
    show (0 : WithBot ℝ) = ((0 : ℝ) : WithBot ℝ)
    rw [WithBot.coe_zero]
  | cons p ps ih =>
    have hp : (0 : ℝ) ≤ (p : ℝ) := by
      exact_mod_cast h p (List.mem_cons_self p ps)
    show entr (p : ℝ) + entrSum ps = _
    rw [entr, if_neg (not_lt.mpr hp), ih (fun q hq => h q (List.mem_cons_of_mem p hq))]
    rw [← WithBot.coe_add]
    rfl

/-- A negative entry sends the scipy `entr` fold to `-inf`. -/
theorem entrSum_bot_of_neg {l : List ℚ} (h : ∃ q ∈ l, q < 0) : entrSum l = ⊥ := by
  induction l with
  | nil => obtain ⟨q, hq, _⟩ := h; cases hq
  | cons p ps ih =>
    show entr (p : ℝ) + entrSum ps = ⊥
    obtain ⟨q, hq, hqneg⟩ := h
    rcases List.mem_cons.mp hq with rfl | hmem
    · rw [entr, if_pos (by exact_mod_cast hqneg), WithBot.bot_add]
    · rw [ih ⟨q, hmem, hqneg⟩, WithBot.add_bot]

theorem rawShannonSum_nonneg {l : List ℚ} (h : ∀ p ∈ l, 0 ≤ p ∧ p ≤ 1) :
    0 ≤ rawShannonSum l := by
  show 0 ≤ (l.map (fun p : ℚ => Real.negMulLog (p : ℝ))).sum
  apply List.sum_nonneg
  intro x hx
  obtain ⟨p, hp, hfx⟩ := List.mem_map.mp hx
  have h1 : ((0 : ℚ) : ℝ) ≤ (p : ℝ) := Rat.cast_le.mpr (h p hp).1
  have h2 : (p : ℝ) ≤ ((1 : ℚ) : ℝ) := Rat.cast_le.mpr (h p hp).2
  rw [Rat.cast_zero] at h1
  rw [Rat.cast_one] at h2
  rw [← hfx]
  exact Real.negMulLog_nonneg h1 h2

theorem normalizePk_nonneg {pk : List ℚ} (h : ∀ p ∈ pk, 0 ≤ p) :
    ∀ q ∈ normalizePk pk, 0 ≤ q ∧ q ≤ 1 := by
  intro q hq
  obtain ⟨p, hp, rfl⟩ := List.mem_map.mp hq
  have hsum : 0 ≤ pk.sum := List.sum_nonneg h
  constructor
  · exact div_nonneg (h p hp) hsum
  · rcases eq_or_lt_of_le hsum with heq | hlt
    · rw [← heq, div_zero]; exact zero_le_one
    · exact (div_le_one hlt).mpr (List.single_le_sum h p hp)

/-- `scipy.stats.entropy` of a nonnegative vector is a nonnegative real. -/
theorem scipyEntropy_nonneg {pk : List ℚ} (h : ∀ p ∈ pk, 0 ≤ p) :
    ∃ hval : ℝ, scipyEntropy pk = ((hval : ℝ) : WithBot ℝ) ∧ 0 ≤ hval := by
  have hn := normalizePk_nonneg h
  refine ⟨rawShannonSum (normalizePk pk), ?_, ?_⟩
  · exact entrSum_coe_of_nonneg (fun q hq => (hn q hq).1)
  · exact rawShannonSum_nonneg hn

theorem negMulLog_pos_of_lt_one {x : ℝ} (h0 : 0 < x) (h1 : x < 1) :
    0 < Real.negMulLog x := by
  have hlog : Real.log x < 0 := Real.log_neg h0 h1
  have hneg : x * Real.log x < 0 := mul_neg_of_pos_of_neg h0 hlog
  simp only [Real.negMulLog_eq_neg]
  linarith

theorem negMulLog_neg_of_one_lt {x : ℝ} (h1 : 1 < x) :
    Real.negMulLog x < 0 := by
  have hlog : 0 < Real.log x := Real.log_pos h1
  have hpos : 0 < x * Real.log x := mul_pos (lt_trans zero_lt_one h1) hlog
  simp only [Real.negMulLog_eq_neg]
  linarith

/-- `scipy.stats.entropy` of a vector of at least two strictly positive
entries is strictly positive. -/
theorem scipyEntropy_pos {pk : List ℚ} (hlen : 2 ≤ pk.length) (h : ∀ p ∈ pk, 0 < p) :
    ∃ hval : ℝ, scipyEntropy pk = ((hval : ℝ) : WithBot ℝ) ∧ 0 < hval := by
  have hnn : ∀ p ∈ pk, 0 ≤ p := fun p hp => le_of_lt (h p hp)
  have hn := normalizePk_nonneg hnn
  refine ⟨rawShannonSum (normalizePk pk), entrSum_coe_of_nonneg (fun q hq => (hn q hq).1), ?_⟩
  match pk, hlen with
  | a :: b :: rest, _ =>
    have ha : 0 < a := h a (List.mem_cons_self _ _)
    have hb : 0 < b := h b (List.mem_cons_of_mem _ (List.mem_cons_self _ _))
    have hrest : 0 ≤ rest.sum :=
      List.sum_nonneg fun x hx =>
        le_of_lt (h x (List.mem_cons_of_mem _ (List.mem_cons_of_mem _ hx)))
    have hsum : (a :: b :: rest).sum = a + (b + rest.sum) := by
      simp [List.sum_cons]
    have hq_unit : ∀ p ∈ a :: b :: rest, 0 < p / (a :: b :: rest).sum ∧
        p / (a :: b :: rest).sum < 1 := by
      intro p hp
      have hS : 0 < (a :: b :: rest).sum := by rw [hsum]; linarith
      refine ⟨div_pos (h p hp) hS, (div_lt_one hS).mpr ?_⟩
      rcases List.mem_cons.mp hp with rfl | hp'
      · rw [hsum]; linarith
      · have hple : p ≤ (b :: rest).sum :=
          List.single_le_sum
            (fun x hx => le_of_lt (h x (List.mem_cons_of_mem _ hx))) p hp'
        have : (b :: rest).sum = b + rest.sum := by simp [List.sum_cons]
        rw [hsum]
        linarith
    show 0 < rawShannonSum (normalizePk (a :: b :: rest))
    show 0 < ((normalizePk (a :: b :: rest)).map
      (fun p : ℚ => Real.negMulLog (p : ℝ))).sum
    apply List.sum_pos
    · intro x hx
      obtain ⟨p, hp, hfx⟩ :=
        (@List.mem_map ℚ ℝ x (fun p : ℚ => Real.negMulLog (p : ℝ))
          (normalizePk (a :: b :: rest))).mp hx
      obtain ⟨q, hq, rfl⟩ :=
        (@List.mem_map ℚ ℚ p (fun p : ℚ => p / (a :: b :: rest).sum)
          (a :: b :: rest)).mp hp
      obtain ⟨h0, h1⟩ := hq_unit q hq
      rw [← hfx]
      exact negMulLog_pos_of_lt_one (by exact_mod_cast h0) (by exact_mod_cast h1)
    · intro habs
      have : normalizePk (a :: b :: rest) = [] := List.map_eq_nil_iff.mp habs
      have : (a :: b :: rest).length = 0 := by
        have hlen2 : (normalizePk (a :: b :: rest)).length = (a :: b :: rest).length := by
          unfold normalizePk
          exact List.length_map _ _
        rw [this] at hlen2
        exact hlen2.symm
      simp at this

/-- The final `min(1.0, h/8)` clamp lands in `[0, 1]` whenever `h ≥ 0`. -/
theorem clamp_div8_mem_unit {h : ℝ} (hh : 0 ≤ h) :
    okInUnit (.ok (min 1 (((h : ℝ) : WithBot ℝ).map (fun z => z / 8)))) := by
  refine ⟨min 1 (h / 8), ?_, ?_, min_le_left _ _⟩
  · rw [WithBot.map_coe, ← WithBot.coe_one, ← WithBot.coe_min]
  · exact le_min zero_le_one (by positivity)

/-- `NumericalEntropy` only looks at the widened float list: two inputs
that widen identically score identically. -/
theorem numericalComputeEntropy_congr_widen {xs ys : List PyVal}
    (hx : xs.all isPyNumber = true) (hy : ys.all isPyNumber = true)
    (hlen : xs.length = ys.length)
    (hw : xs.map pyWiden = ys.map pyWiden) :
    numericalComputeEntropy (.list xs) = numericalComputeEntropy (.list ys) := by
  have he : xs.isEmpty = ys.isEmpty := by
    cases xs with
    | nil => cases ys with
      | nil => rfl
      | cons y t => simp at hlen
    | cons x t => cases ys with
      | nil => simp at hlen
      | cons y t' => rfl
  simp only [numericalComputeEntropy]
  rw [he, hx, hy, hw]

/-- Under passing type and finiteness checks, `NumericalEntropy` returns a
value (never an error). -/
theorem numericalComputeEntropy_isOk {xs : List PyVal}
    (hx : xs.all isPyNumber = true)
    (hf : (xs.map pyWiden).all PyFloat.isFinite = true) :
    ∃ r : WithBot ℝ, numericalComputeEntropy (.list xs) = .ok r := by
  simp only [numericalComputeEntropy]
  by_cases he : xs.isEmpty
  · rw [if_pos he]
    exact ⟨0, rfl⟩
  · rw [if_neg he, hx]
    rw [if_neg (by simp)]
    rw [hf]
    rw [if_neg (by simp)]
    by_cases hl : ((xs.map pyWiden).map PyFloat.val).length < 2
    · rw [if_pos hl]
      exact ⟨0, rfl⟩
    · rw [if_neg hl]
      exact ⟨_, rfl⟩

/-- A non-string element or an unparseable timestamp string makes the
conversion loop of `TimeEntropy` raise. -/
theorem parseTimes_error_of_bad {xs : List PyVal}
    (h : ∃ x ∈ xs, ¬ (isPyStr x && (parseTimestamp (pyStrVal x)).isSome) = true) :
    ∃ m, parseTimes xs = .error m := by
  induction xs with
  | nil =>
    obtain ⟨x, hx, _⟩ := h
    cases hx
  | cons a rest ih =>
    obtain ⟨x, hx, hbad⟩ := h
    rcases List.mem_cons.mp hx with rfl | hmem
    · match x, hbad with
      | .str s, hbad =>
        have hpn : parseTimestamp s = Option.none := by
          cases hp : parseTimestamp s with
          | none => rfl
          | some t =>
            rw [show isPyStr (PyVal.str s) = true from rfl] at hbad
            rw [show pyStrVal (PyVal.str s) = s from rfl] at hbad
            rw [hp] at hbad
            simp at hbad
        refine ⟨"Invalid isoformat string: " ++ s, ?_⟩
        simp only [parseTimes, hpn]
      | .none, _ => exact ⟨_, rfl⟩
      | .bool _, _ => exact ⟨_, rfl⟩
      | .int _, _ => exact ⟨_, rfl⟩
      | .float _, _ => exact ⟨_, rfl⟩
      | .list _, _ => exact ⟨_, rfl⟩
    · match a with
      | .str s =>
        cases hp : parseTimestamp s with
        | none =>
          refine ⟨"Invalid isoformat string: " ++ s, ?_⟩
          simp only [parseTimes, hp]
        | some t =>
          obtain ⟨m, hm⟩ := ih ⟨x, hmem, hbad⟩
          refine ⟨m, ?_⟩
          simp only [parseTimes, hp, hm]
          rfl
      | .none => exact ⟨_, rfl⟩
      | .bool _ => exact ⟨_, rfl⟩
      | .int _ => exact ⟨_, rfl⟩
      | .float _ => exact ⟨_, rfl⟩
      | .list _ => exact ⟨_, rfl⟩

/-- On a list of parseable timestamp strings the conversion loop returns
all the epoch values, in order. -/
theorem parseTimes_map_str {xs : List String}
    (h : ∀ s ∈ xs, (parseTimestamp s).isSome = true) :
    parseTimes (xs.map PyVal.str) = .ok (xs.filterMap parseTimestamp) := by
  induction xs with
  | nil => rfl
  | cons s rest ih =>
    obtain ⟨t, ht⟩ := Option.isSome_iff_exists.mp (h s (List.mem_cons_self _ _))
    have ihr := ih (fun u hu => h u (List.mem_cons_of_mem _ hu))
    simp only [List.map_cons, parseTimes, ht, List.filterMap_cons, ihr]
    rfl

theorem parseTimes_ok_length {xs : List PyVal} {ts : List ℚ}
    (h : parseTimes xs = .ok ts) : ts.length = xs.length := by
  induction xs generalizing ts with
  | nil =>
    cases h
    rfl
  | cons a rest ih =>
    match a, h with
    | .str s, h =>
      cases hp : parseTimestamp s with
      | none =>
        rw [show parseTimes (PyVal.str s :: rest) =
          (match parseTimestamp s with
            | some t => (parseTimes rest).map (fun ts => t :: ts)
            | Option.none => .error ("Invalid isoformat string: " ++ s)) from rfl, hp] at h
        cases h
      | some t =>
        rw [show parseTimes (PyVal.str s :: rest) =
          (match parseTimestamp s with
            | some t => (parseTimes rest).map (fun ts => t :: ts)
            | Option.none => .error ("Invalid isoformat string: " ++ s)) from rfl, hp] at h
        cases hrest : parseTimes rest with
        | error m =>
          rw [hrest] at h
          cases h
        | ok ts' =>
          rw [hrest] at h
          cases h
          rw [List.length_cons, ih hrest]
          rfl

/-- Branch-level description of `TimeEntropy.compute_entropy` once the
conversion loop has succeeded. -/
theorem timeComputeEntropy_list_eq {xs : List PyVal} {ts : List ℚ}
    (hne : xs.isEmpty = false) (hp : parseTimes xs = .ok ts) :
    timeComputeEntropy (.list xs) =
      (if ts.length < 2 then .ok 0
       else if listMax (listDiff ts) - listMin (listDiff ts) = 0 then .ok 0
       else .ok (min 1 ((scipyEntropy (((listDiff ts).map
           (fun i => i / (listMax (listDiff ts) - listMin (listDiff ts)))).map
           (· + epsilon10))).map (fun h => h / 8)))) := by
  simp only [timeComputeEntropy, hne, hp]
  simp

theorem clampScore_coe (h : ℝ) :
    min 1 (((h : ℝ) : WithBot ℝ).map (fun z => z / 8)) =
      ((min 1 (h / 8) : ℝ) : WithBot ℝ) := by
  rw [WithBot.map_coe, ← WithBot.coe_one, ← WithBot.coe_min]

theorem scipyEntropyBase2_coe {pk : List ℚ} {hv : ℝ}
    (h : scipyEntropy pk = ((hv : ℝ) : WithBot ℝ)) :
    scipyEntropyBase2 pk = ((hv / Real.log 2 : ℝ) : WithBot ℝ) := by
  rw [scipyEntropyBase2, h, WithBot.map_coe]

theorem histogramEdges_le (l : List ℚ) : (histogramEdges l).1 ≤ (histogramEdges l).2 := by
  rw [histogramEdges]
  by_cases h : listMin l = listMax l
  · rw [if_pos h]
    show listMin l - 1 / 2 ≤ listMin l + 1 / 2
    linarith
  · rw [if_neg h]
    show listMin l ≤ listMax l
    cases l with
    | nil => exact absurd rfl h
    | cons x xs => exact listMin_le_listMax (by simp)

theorem histogramDensities_nonneg (l : List ℚ) :
    ∀ d ∈ histogramDensities l, 0 ≤ d := by
  intro d hd
  rw [histogramDensities] at hd
  obtain ⟨i, _, hfx⟩ :=
    (@List.mem_map ℕ ℚ d _ (List.range (histogramNBins l))).mp hd
  rw [← hfx]
  have hdb : (0 : ℚ) ≤ ((histogramEdges l).2 - (histogramEdges l).1) / (histogramNBins l : ℚ) := by
    apply div_nonneg
    · linarith [histogramEdges_le l]
    · exact_mod_cast Nat.zero_le _
  positivity

theorem histogramDensities_length (l : List ℚ) :
    (histogramDensities l).length = histogramNBins l := by
  rw [histogramDensities]
  rw [List.length_map, List.length_range]

/-- Branch-level description of `NumericalEntropy.compute_entropy` on a
well-typed list of at least two finite numbers. -/
theorem numerical_eval_list {xs : List PyVal} (hne : xs.isEmpty = false)
    (hall : xs.all isPyNumber = true)
    (hfin : (xs.map pyWiden).all PyFloat.isFinite = true)
    (hlen : ¬ ((xs.map pyWiden).map PyFloat.val).length < 2) :
    numericalComputeEntropy (.list xs) =
      .ok (min 1 ((scipyEntropy ((histogramDensities ((xs.map pyWiden).map PyFloat.val)).map
        (· + epsilon10))).map (fun h => h / 8))) := by
  simp only [numericalComputeEntropy, hne, hall, hfin, Bool.false_eq_true, if_false]
  simp only [not_true, if_false]
  rw [if_neg hlen]

theorem getD_map_lt {α : Type} {β : Type} [Inhabited β] (f : α → β) (l : List α)
    (j : ℕ) (hj : j < l.length) (d : β) (d' : α) :
    (l.map f).getD j d = f (l.getD j d') := by
  rw [List.getD_eq_getElem?_getD, List.getD_eq_getElem?_getD, List.getElem?_map]
  rw [List.getElem?_eq_getElem hj]
  rfl

theorem popStd_nonneg (l : List ℝ) : 0 ≤ popStd l := Real.sqrt_nonneg _

theorem listMeanR_pos_of_mem {l : List ℝ} {x : ℝ} (hnn : ∀ y ∈ l, 0 ≤ y)
    (hx : x ∈ l) (hxpos : 0 < x) : 0 < listMeanR l := by
  rw [listMeanR]
  apply div_pos
  · linarith [List.single_le_sum hnn x hx]
  · have h1 : l ≠ [] := List.ne_nil_of_mem hx
    have h2 : 0 < l.length := List.length_pos.mpr h1
    exact_mod_cast h2

theorem popStd_pair_pos {a : ℝ} (ha : 0 < a) : 0 < popStd [a, 0] := by
  rw [popStd, listMeanR]
  rw [Real.sqrt_pos]
  have h1 : ([a, 0] : List ℝ).sum = a := by simp
  rw [h1]
  have h2 : (([a, 0] : List ℝ).map (fun x => (x - a / (([a, 0] : List ℝ).length : ℝ)) ^ 2)).sum
      = (a - a / 2) ^ 2 + (0 - a / 2) ^ 2 := by
    simp [List.sum_cons]
  rw [h2]
  have hlen : ((([a, 0] : List ℝ).length : ℝ)) = 2 := by simp
  rw [hlen]
  have : (a - a / 2) ^ 2 + (0 - a / 2) ^ 2 = a ^ 2 / 2 := by ring
  rw [this]
  positivity

theorem textEntropy_aaaa : textComputeEntropy (.str "aaaa") = .ok (((0 : ℝ) : WithBot ℝ)) := by
  have hck : counterKeys "aaaa".toList = ['a'] := rfl
  have h1 : charProbs "aaaa" = [1] := by
    rw [charProbs, hck]
    rw [List.map_cons, List.map_nil]
    rw [show List.count 'a' "aaaa".toList = 4 from rfl,
      show ("aaaa".toList.length) = 4 from rfl]
    norm_num
  have h2 : normalizePk [1] = [1] := by
    norm_num [normalizePk, List.sum_cons, List.sum_nil]
  have h3 : scipyEntropy [1] = (((0 : ℝ)) : WithBot ℝ) := by
    rw [scipyEntropy, h2, entrSum_coe_of_nonneg (by intro p hp; fin_cases hp <;> norm_num)]
    norm_num [rawShannonSum]
  have h4 : scipyEntropyBase2 (charProbs "aaaa") = ((0 : ℝ) : WithBot ℝ) := by
    rw [h1]
    rw [scipyEntropyBase2_coe h3]
    norm_num
  show (if "aaaa" = "" then Except.ok 0
    else .ok (min 1 ((scipyEntropyBase2 (charProbs "aaaa")).map (fun h => h / 8)))) = _
  rw [if_neg (by decide), h4, clampScore_coe]
  have : min (1 : ℝ) (0 / 8) = 0 := by norm_num
  rw [this]

theorem textEntropy_abcd_pos :
    ∃ b : ℝ, textComputeEntropy (.str "abcd") = .ok ((b : ℝ) : WithBot ℝ) ∧ 0 < b := by
  have hck : counterKeys "abcd".toList = ['a', 'b', 'c', 'd'] := rfl
  have h1 : charProbs "abcd" = [1/4, 1/4, 1/4, 1/4] := by
    rw [charProbs, hck]
    rw [List.map_cons, List.map_cons, List.map_cons, List.map_cons, List.map_nil]
    rw [show List.count 'a' "abcd".toList = 1 from rfl,
      show List.count 'b' "abcd".toList = 1 from rfl,
      show List.count 'c' "abcd".toList = 1 from rfl,
      show List.count 'd' "abcd".toList = 1 from rfl,
      show ("abcd".toList.length) = 4 from rfl]
    norm_num
  have h2 : normalizePk [1/4, 1/4, 1/4, 1/4] = [1/4, 1/4, 1/4, 1/4] := by
    norm_num [normalizePk, List.sum_cons, List.sum_nil]
  have hterm : 0 < Real.negMulLog ((1/4 : ℚ) : ℝ) := by
    apply negMulLog_pos_of_lt_one
    · rw [show ((1/4 : ℚ) : ℝ) = 1/4 by norm_num]
      norm_num
    · rw [show ((1/4 : ℚ) : ℝ) = 1/4 by norm_num]
      norm_num
  have hraw : 0 < rawShannonSum [1/4, 1/4, 1/4, 1/4] := by
    show 0 < (([1/4, 1/4, 1/4, 1/4] : List ℚ).map (fun p : ℚ => Real.negMulLog (p : ℝ))).sum
    simp only [List.map_cons, List.map_nil, List.sum_cons, List.sum_nil]
    linarith [hterm]
  have hs : scipyEntropy (charProbs "abcd") =
      ((rawShannonSum [1/4, 1/4, 1/4, 1/4] : ℝ) : WithBot ℝ) := by
    rw [h1, scipyEntropy, h2,
      entrSum_coe_of_nonneg (by intro p hp; fin_cases hp <;> norm_num)]
  have hb2 := scipyEntropyBase2_coe hs
  refine ⟨min 1 ((rawShannonSum [1/4, 1/4, 1/4, 1/4] / Real.log 2) / 8), ?_, ?_⟩
  · show (if "abcd" = "" then Except.ok 0
      else .ok (min 1 ((scipyEntropyBase2 (charProbs "abcd")).map (fun h => h / 8)))) = _
    rw [if_neg (by decide), hb2, clampScore_coe]
  · have hdiv : 0 < rawShannonSum [1/4, 1/4, 1/4, 1/4] / Real.log 2 / 8 :=
      div_pos (div_pos hraw (Real.log_pos one_lt_two)) (by norm_num)
    exact lt_min one_pos hdiv

theorem numericalEntropy_111 :
    numericalComputeEntropy (.list [.int 1, .int 1, .int 1]) = .ok (((0 : ℝ) : WithBot ℝ)) := by
  have e1 : ([PyVal.int 1, .int 1, .int 1].map pyWiden).map PyFloat.val = [1, 1, 1] := by decide
  rw [@numerical_eval_list [PyVal.int 1, .int 1, .int 1] rfl (by decide) (by decide) (by decide),
    e1]
  have hfd : histBinFd [1, 1, 1] = 0 := by
    rw [histBinFd]
    rw [show (percentile [1, 1, 1] 75 - percentile [1, 1, 1] 25 : ℚ) = 0 from by
      norm_num [percentile, List.insertionSort, List.orderedInsert]]
    norm_num
  have hminv : listMin [1, 1, 1] = (1 : ℚ) := by decide
  have hmaxv : listMax [1, 1, 1] = (1 : ℚ) := by decide
  have hst : histBinSturges [1, 1, 1] = 0 := by
    rw [histBinSturges]
    rw [show (listMax [1, 1, 1] - listMin [1, 1, 1] : ℚ) = 0 from by
      rw [hminv, hmaxv]; norm_num]
    norm_num
  have hauto : histBinAuto [1, 1, 1] = 0 := by
    rw [histBinAuto, hfd]
    simp [hst]
  have hnb : histogramNBins [1, 1, 1] = 1 := by
    simp only [histogramNBins, hauto]
    simp
  have hedge1 : histogramEdges [1, 1, 1] = (1/2, 3/2) := by
    simp only [histogramEdges, hminv, hmaxv]
    norm_num
  have hbin : binIndex 1 (1/2) (3/2) 1 = 0 := by
    norm_num [binIndex]
  have hdens : histogramDensities [1, 1, 1] = [1] := by
    simp only [histogramDensities, hnb, hedge1]
    rw [show List.range 1 = [0] from rfl]
    simp only [List.map_cons, List.map_nil]
    rw [show (List.filter (fun x => decide (binIndex 1 (1/2) (3/2) x = 0)) ([1, 1, 1] : List ℚ))
        = [1, 1, 1] from by
      simp only [List.filter_cons, List.filter_nil, hbin]
      norm_num]
    norm_num
  rw [hdens]
  rw [show ([1] : List ℚ).map (· + epsilon10) = [1 + epsilon10] from rfl]
  have hnorm : normalizePk [1 + epsilon10] = [1] := by
    norm_num [normalizePk, List.sum_cons, List.sum_nil, epsilon10]
  have hs : scipyEntropy [1 + epsilon10] = ((0 : ℝ) : WithBot ℝ) := by
    rw [scipyEntropy, hnorm,
      entrSum_coe_of_nonneg (by intro p hp; fin_cases hp <;> norm_num)]
    norm_num [rawShannonSum]
  rw [hs, clampScore_coe]
  have : min (1 : ℝ) (0 / 8) = 0 := by norm_num
  rw [this]

theorem numericalEntropy_123_pos :
    ∃ b : ℝ, numericalComputeEntropy (.list [.int 1, .int 2, .int 3]) =
      .ok ((b : ℝ) : WithBot ℝ) ∧ 0 < b := by
  have e1 : ([PyVal.int 1, .int 2, .int 3].map pyWiden).map PyFloat.val = [1, 2, 3] := by decide
  rw [@numerical_eval_list [PyVal.int 1, .int 2, .int 3] rfl (by decide) (by decide) (by decide),
    e1]
  have hiqr : (percentile [1, 2, 3] 75 - percentile [1, 2, 3] 25 : ℚ) = 1 := by
    norm_num [percentile, List.insertionSort, List.orderedInsert]
  have hfd_pos : 0 < histBinFd [1, 2, 3] := by
    rw [histBinFd, hiqr]
    have h3 : (0 : ℝ) < ((([1, 2, 3] : List ℚ).length : ℕ) : ℝ) ^ (-(1 : ℝ)/3) :=
      Real.rpow_pos_of_pos (by norm_num) _
    positivity
  have hminv : listMin [1, 2, 3] = (1 : ℚ) := by decide
  have hmaxv : listMax [1, 2, 3] = (3 : ℚ) := by decide
  have hlen3 : ((([1, 2, 3] : List ℚ).length : ℕ) : ℝ) = 3 := by norm_num
  have hmaxmin : (listMax [1, 2, 3] - listMin [1, 2, 3] : ℚ) = 2 := by
    rw [hminv, hmaxv]; norm_num
  have hlogb : (1 : ℝ) < Real.logb 2 3 := by
    calc (1 : ℝ) = Real.logb 2 2 := (Real.logb_self_eq_one one_lt_two).symm
      _ < Real.logb 2 3 := Real.logb_lt_logb one_lt_two (by norm_num) (by norm_num)
  have hst_pos : 0 < histBinSturges [1, 2, 3] := by
    rw [histBinSturges, hmaxmin, hlen3]
    apply div_pos
    · rw [show ((2 : ℚ) : ℝ) = 2 by norm_num]
      norm_num
    · linarith
  have hst_lt : histBinSturges [1, 2, 3] < 1 := by
    rw [histBinSturges, hmaxmin, hlen3]
    rw [div_lt_one (by linarith : (0:ℝ) < Real.logb 2 3 + 1)]
    rw [show ((2 : ℚ) : ℝ) = 2 by norm_num]
    linarith
  have hauto_pos : 0 < histBinAuto [1, 2, 3] := by
    rw [histBinAuto, if_pos (ne_of_gt hfd_pos)]
    exact lt_min hfd_pos hst_pos
  have hauto_lt : histBinAuto [1, 2, 3] < 1 := by
    rw [histBinAuto, if_pos (ne_of_gt hfd_pos)]
    exact lt_of_le_of_lt (min_le_right _ _) hst_lt
  have hedge : histogramEdges [1, 2, 3] = (1, 3) := by
    simp only [histogramEdges, hminv, hmaxv]
    rw [if_neg (by norm_num)]
  have hnb2 : 2 ≤ histogramNBins [1, 2, 3] := by
    simp only [histogramNBins, hedge]
    rw [if_pos (ne_of_gt hauto_pos)]
    have hgt : (2 : ℝ) < (((3 - 1 : ℚ)) : ℝ) / histBinAuto [1, 2, 3] := by
      rw [show ((3 - 1 : ℚ) : ℝ) = 2 by norm_num]
      rw [lt_div_iff₀ hauto_pos]
      nlinarith
    have hceil : (2 : ℤ) < Int.ceil ((((3 - 1 : ℚ)) : ℝ) / histBinAuto [1, 2, 3]) :=
      Int.lt_ceil.mpr (by exact_mod_cast hgt)
    have h0 : (0 : ℤ) ≤ Int.ceil ((((3 - 1 : ℚ)) : ℝ) / histBinAuto [1, 2, 3]) := by linarith
    exact (Int.le_toNat h0).mpr (by exact_mod_cast le_of_lt hceil)
  have hvec_len : 2 ≤ ((histogramDensities [1, 2, 3]).map (· + epsilon10)).length := by
    rw [List.length_map, histogramDensities_length]
    exact hnb2
  have hvec_pos : ∀ q ∈ (histogramDensities [1, 2, 3]).map (· + epsilon10), 0 < q := by
    intro q hq
    obtain ⟨d, hd, hfx⟩ :=
      (@List.mem_map ℚ ℚ q (· + epsilon10) (histogramDensities [1, 2, 3])).mp hq
    rw [← hfx]
    have hdn := histogramDensities_nonneg [1, 2, 3] d hd
    have heps : (0 : ℚ) < epsilon10 := by norm_num [epsilon10]
    linarith
  obtain ⟨H, hH, hHpos⟩ := scipyEntropy_pos hvec_len hvec_pos
  rw [hH, clampScore_coe]
  exact ⟨min 1 (H / 8), rfl, lt_min one_pos (by positivity)⟩

theorem searchEntropy_same_same :
    searchComputeEntropy (.list [.str "same", .str "same"]) = .ok 0 := by
  simp only [searchComputeEntropy]
  rw [if_neg (by decide : ¬ ([PyVal.str "same", .str "same"] : List PyVal).isEmpty = true)]
  rw [if_neg (show ¬ ¬ ([PyVal.str "same", .str "same"] : List PyVal).all isPyStr = true
    from by decide)]
  rw [if_pos (by decide :
    (([PyVal.str "same", .str "same"] : List PyVal).map pyStrVal).dedup.length = 1)]

theorem searchEntropy_alpha_beta_pos :
    ∃ b : ℝ, searchComputeEntropy (.list [.str "alpha", .str "beta distinct"]) = .ok b ∧
      0 < b := by
  have hdocs : ([PyVal.str "alpha", .str "beta distinct"] : List PyVal).map pyStrVal =
      ["alpha", "beta distinct"] := rfl
  have hmem : "al" ∈ vocabulary ["alpha", "beta distinct"] := by
    rw [vocabulary]
    rw [(List.perm_insertionSort (fun x y => x ≤ y) _).mem_iff]
    rw [List.mem_dedup]
    decide
  have hjlt : List.indexOf "al" (vocabulary ["alpha", "beta distinct"]) <
      (vocabulary ["alpha", "beta distinct"]).length :=
    List.indexOf_lt_length.mpr hmem
  have hVj : (vocabulary ["alpha", "beta distinct"]).getD
      (List.indexOf "al" (vocabulary ["alpha", "beta distinct"])) "" = "al" := by
    rw [List.getD_eq_getElem?_getD, List.getElem?_eq_getElem hjlt]
    show (vocabulary ["alpha", "beta distinct"])[List.indexOf "al" _] = "al"
    exact List.getElem_indexOf hjlt
  have hidf : 0 < idf ["alpha", "beta distinct"] "al" := by
    rw [idf]
    rw [show dfCount ["alpha", "beta distinct"] "al" = 1 from by decide]
    have hlog : 0 < Real.log ((1 + ((["alpha", "beta distinct"] : List String).length : ℝ)) / (1 + ((1 : ℕ) : ℝ))) := by
      apply Real.log_pos
      norm_num
    linarith
  have hcount1 : ((charWbNgrams "alpha").count "al" : ℝ) = 1 := by
    rw [show (charWbNgrams "alpha").count "al" = 1 from by decide]
    norm_num
  have hcount2 : ((charWbNgrams "beta distinct").count "al" : ℝ) = 0 := by
    rw [show (charWbNgrams "beta distinct").count "al" = 0 from by decide]
    norm_num
  have hrowlen : ∀ d : String, (tfidfRow ["alpha", "beta distinct"] d).length =
      (vocabulary ["alpha", "beta distinct"]).length := by
    intro d
    rw [tfidfRow, List.length_map]
  have hrow1j : (tfidfRow ["alpha", "beta distinct"] "alpha").getD
      (List.indexOf "al" (vocabulary ["alpha", "beta distinct"])) 0 =
      idf ["alpha", "beta distinct"] "al" := by
    rw [tfidfRow]
    rw [getD_map_lt _ _ _ hjlt 0 ""]
    rw [hVj, hcount1, one_mul]
  have hrow2j : (tfidfRow ["alpha", "beta distinct"] "beta distinct").getD
      (List.indexOf "al" (vocabulary ["alpha", "beta distinct"])) 0 = 0 := by
    rw [tfidfRow]
    rw [getD_map_lt _ _ _ hjlt 0 ""]
    rw [hVj, hcount2, zero_mul]
  have hN1 : 0 < Real.sqrt (((tfidfRow ["alpha", "beta distinct"] "alpha").map
      (fun x => x ^ 2)).sum) := by
    rw [Real.sqrt_pos]
    have hmemrow : idf ["alpha", "beta distinct"] "al" ∈
        tfidfRow ["alpha", "beta distinct"] "alpha" := by
      rw [← hrow1j]
      rw [List.getD_eq_getElem?_getD, List.getElem?_eq_getElem (by rw [hrowlen]; exact hjlt)]
      exact List.getElem_mem _
    have hsq : idf ["alpha", "beta distinct"] "al" ^ 2 ∈
        (tfidfRow ["alpha", "beta distinct"] "alpha").map (fun x => x ^ 2) :=
      List.mem_map_of_mem _ hmemrow
    have hle := List.single_le_sum
      (fun x hx => by
        obtain ⟨y, _, hfy⟩ := (@List.mem_map ℝ ℝ x (fun x => x ^ 2)
          (tfidfRow ["alpha", "beta distinct"] "alpha")).mp hx
        rw [← hfy]
        positivity) _ hsq
    nlinarith [hidf]
  have hr1 : (l2normalize (tfidfRow ["alpha", "beta distinct"] "alpha")).getD
      (List.indexOf "al" (vocabulary ["alpha", "beta distinct"])) 0 =
      idf ["alpha", "beta distinct"] "al" / Real.sqrt (((tfidfRow ["alpha", "beta distinct"] "alpha").map
        (fun x => x ^ 2)).sum) := by
    rw [l2normalize]
    rw [if_neg (ne_of_gt hN1)]
    rw [getD_map_lt _ _ _ (by rw [hrowlen]; exact hjlt) 0 0]
    rw [hrow1j]
  have hr2 : (l2normalize (tfidfRow ["alpha", "beta distinct"] "beta distinct")).getD
      (List.indexOf "al" (vocabulary ["alpha", "beta distinct"])) 0 = 0 := by
    rw [l2normalize]
    by_cases hN2 : Real.sqrt (((tfidfRow ["alpha", "beta distinct"] "beta distinct").map
        (fun x => x ^ 2)).sum) = 0
    · rw [if_pos hN2]
      exact hrow2j
    · rw [if_neg hN2]
      rw [getD_map_lt _ _ _ (by rw [hrowlen]; exact hjlt) 0 0]
      rw [hrow2j, zero_div]
  simp only [searchComputeEntropy]
  rw [if_neg (by decide :
    ¬ ([PyVal.str "alpha", .str "beta distinct"] : List PyVal).isEmpty = true)]
  rw [if_neg (show ¬ ¬ ([PyVal.str "alpha", .str "beta distinct"] : List PyVal).all
    isPyStr = true from by decide)]
  rw [hdocs]
  rw [if_neg (by decide : ¬ (["alpha", "beta distinct"] : List String).dedup.length = 1)]
  rw [if_neg (fun h => List.ne_nil_of_mem hmem (List.isEmpty_iff.mp h))]
  have hlen_ne : ∀ gf : ℕ → ℝ,
      ((List.range (vocabulary ["alpha", "beta distinct"]).length).map gf).length ≠ 0 := by
    intro gf
    rw [List.length_map, List.length_range]
    omega
  rw [if_pos (hlen_ne _)]
  refine ⟨_, rfl, ?_⟩
  apply lt_min one_pos
  apply listMeanR_pos_of_mem ?hnn
    (List.mem_map_of_mem _ (List.mem_range.mpr hjlt)) ?hpos
  case hnn =>
    intro y hy
    obtain ⟨i, _, hfy⟩ := List.mem_map.mp hy
    rw [← hfy]
    exact popStd_nonneg _
  case hpos =>
    simp only [List.map_cons, List.map_nil]
    rw [hr1, hr2]
    exact popStd_pair_pos (div_pos hidf hN1)

theorem toLower_isWhitespace_false {c : Char} (h : c.isWhitespace = false) :
    (Char.toLower c).isWhitespace = false := by
  show (let n := c.toNat; if n ≥ 65 ∧ n ≤ 90 then Char.ofNat (n + 32) else c).isWhitespace
    = false
  by_cases hc : c.toNat ≥ 65 ∧ c.toNat ≤ 90
  · rw [if_pos hc]
    obtain ⟨h1, h2⟩ := hc
    interval_cases hn : c.toNat <;> decide
  · rw [if_neg hc]
    exact h

theorem splitWordsAux_ne_nil {l : List Char} (acc : List Char)
    (h : (∃ c ∈ l, c.isWhitespace = false) ∨ acc ≠ []) :
    splitWordsAux l acc ≠ [] := by
  induction l generalizing acc with
  | nil =>
    rcases h with ⟨c, hc, _⟩ | hacc
    · cases hc
    · show (if acc.isEmpty then [] else [acc.reverse]) ≠ []
      rw [if_neg (by
        intro hi
        exact hacc (List.isEmpty_iff.mp (by revert hi; cases acc.isEmpty <;> simp)))]
      simp
  | cons c rest ih =>
    show (if c.isWhitespace then
        (if acc.isEmpty then splitWordsAux rest [] else acc.reverse :: splitWordsAux rest [])
      else splitWordsAux rest (c :: acc)) ≠ []
    by_cases hws : c.isWhitespace = true
    · rw [if_pos hws]
      by_cases hacc : acc.isEmpty = true
      · rw [if_pos hacc]
        apply ih
        left
        rcases h with ⟨d, hd, hdw⟩ | hacc'
        · rcases List.mem_cons.mp hd with rfl | hmem
          · rw [hws] at hdw
            cases hdw
          · exact ⟨d, hmem, hdw⟩
        · exact absurd (List.isEmpty_iff.mp hacc) hacc'
      · rw [if_neg hacc]
        simp
    · rw [if_neg hws]
      apply ih
      right
      simp

theorem ngramSlices_ne_nil (l : List Char) (n : ℕ) : ngramSlices l n ≠ [] := by
  apply List.ne_nil_of_length_pos
  rw [ngramSlices, List.length_map, List.length_range]
  omega

theorem charWbNgrams_ne_nil {s : String} (h : hasNonWs s = true) :
    charWbNgrams s ≠ [] := by
  rw [hasNonWs, List.any_eq_true] at h
  obtain ⟨c, hc, hcw⟩ := h
  have hcw' : c.isWhitespace = false := by
    revert hcw
    cases c.isWhitespace <;> simp
  have hsplit : splitWords (s.toList.map Char.toLower) ≠ [] := by
    apply splitWordsAux_ne_nil
    left
    exact ⟨Char.toLower c, List.mem_map_of_mem _ hc, toLower_isWhitespace_false hcw'⟩
  rw [charWbNgrams]
  cases hw : splitWords (s.toList.map Char.toLower) with
  | nil => exact absurd hw hsplit
  | cons w ws =>
    rw [List.flatMap_cons]
    intro happ
    obtain ⟨hleft, _⟩ := List.append_eq_nil.mp happ
    have := List.map_eq_nil_iff.mp hleft
    exact absurd (List.append_eq_nil.mp this).1 (ngramSlices_ne_nil _ 2)

theorem vocabulary_isEmpty_false {docs : List String} {s : String} (hs : s ∈ docs)
    (hn : charWbNgrams s ≠ []) : (vocabulary docs).isEmpty = false := by
  have h1 : docs.flatMap charWbNgrams ≠ [] := by
    intro hall
    exact hn (List.flatMap_eq_nil_iff.mp hall s hs)
  have h2 : (docs.flatMap charWbNgrams).dedup ≠ [] := fun hd =>
    h1 ((List.dedup_eq_nil _).mp hd)
  have h3 : 0 < (vocabulary docs).length := by
    rw [vocabulary, List.length_insertionSort]
    exact List.length_pos.mpr h2
  cases hv : vocabulary docs with
  | nil =>
    rw [hv] at h3
    simp at h3
  | cons a l => rfl

theorem okInUnitR_min_one {z : ℝ} (hz : 0 ≤ z) : okInUnitR (.ok (min 1 z)) :=
  ⟨min 1 z, rfl, le_min zero_le_one hz, min_le_left _ _⟩

theorem listMeanR_nonneg {l : List ℝ} (h : ∀ x ∈ l, 0 ≤ x) : 0 ≤ listMeanR l :=
  div_nonneg (List.sum_nonneg h) (Nat.cast_nonneg _)

theorem charProbs_nonneg (s : String) : ∀ p ∈ charProbs s, 0 ≤ p := by
  intro p hp
  obtain ⟨c, _, hfc⟩ := (@List.mem_map Char ℚ p
    (fun c => (s.toList.count c : ℚ) / (s.toList.length : ℚ)) (counterKeys s.toList)).mp hp
  rw [← hfc]
  positivity

/-- On a well-shaped timestamp list the conversion loop succeeds and
returns the parsed epochs in order. -/
theorem parseTimes_ok_of_all {xs : List PyVal}
    (h : xs.all (fun x => isPyStr x && (parseTimestamp (pyStrVal x)).isSome) = true) :
    parseTimes xs = .ok (xs.filterMap (fun x => parseTimestamp (pyStrVal x))) := by
  induction xs with
  | nil => rfl
  | cons a rest ih =>
    have ha := List.all_eq_true.mp h a (List.mem_cons_self _ _)
    rw [Bool.and_eq_true] at ha
    match a, ha with
    | .str s, ha =>
      obtain ⟨t, htv⟩ := Option.isSome_iff_exists.mp ha.2
      have ht : parseTimestamp s = some t := htv
      have ihr := ih (List.all_eq_true.mpr
        (fun x hx => List.all_eq_true.mp h x (List.mem_cons_of_mem _ hx)))
      simp only [parseTimes, List.filterMap_cons, ht, htv, ihr]
      rfl

theorem okInUnit_zero : okInUnit (.ok (0 : WithBot ℝ)) :=
  ⟨0, by rw [WithBot.coe_zero], le_refl 0, zero_le_one⟩

theorem text_okInUnit : ∀ v : PyVal, isValidTextInput v = true →
    okInUnit (textComputeEntropy v) := by
  intro v hv
  match v, hv with
  | .none, _ => exact okInUnit_zero
  | .str s, _ =>
    by_cases hs : s = ""
    · show okInUnit (if s = "" then Except.ok 0
        else .ok (min 1 ((scipyEntropyBase2 (charProbs s)).map (fun z => z / 8))))
      rw [if_pos hs]
      exact okInUnit_zero
    · obtain ⟨h, hEq, hnn⟩ := scipyEntropy_nonneg (charProbs_nonneg s)
      have hb2 := scipyEntropyBase2_coe hEq
      have hnn2 : 0 ≤ h / Real.log 2 := div_nonneg hnn (Real.log_nonneg one_le_two)
      show okInUnit (if s = "" then Except.ok 0
        else .ok (min 1 ((scipyEntropyBase2 (charProbs s)).map (fun z => z / 8))))
      rw [if_neg hs, hb2]
      exact clamp_div8_mem_unit hnn2

theorem numerical_okInUnit : ∀ v : PyVal, isValidNumericalInput v = true →
    okInUnit (numericalComputeEntropy v) := by
  intro v hv
  match v, hv with
  | .none, _ => exact okInUnit_zero
  | .list xs, hv =>
    have hv' : xs.all (fun x => isPyNumber x && (pyWiden x).isFinite) = true := hv
    have h1 : xs.all isPyNumber = true := by
      rw [List.all_eq_true] at hv' ⊢
      intro x hx
      exact (Bool.and_eq_true _ _ ▸ hv' x hx).1
    have h2 : (xs.map pyWiden).all PyFloat.isFinite = true := by
      rw [List.all_eq_true] at hv' ⊢
      intro f hf
      obtain ⟨x, hx, hfx⟩ := (@List.mem_map PyVal PyFloat f pyWiden xs).mp hf
      rw [← hfx]
      exact (Bool.and_eq_true _ _ ▸ hv' x hx).2
    by_cases he : xs.isEmpty = true
    · simp only [numericalComputeEntropy]
      rw [if_pos he]
      exact okInUnit_zero
    · have hne : xs.isEmpty = false := by
        revert he
        cases xs.isEmpty <;> simp
      by_cases hl : ((xs.map pyWiden).map PyFloat.val).length < 2
      · simp only [numericalComputeEntropy, hne, Bool.false_eq_true, if_false, h1, h2]
        simp only [not_true, if_false]
        rw [if_pos hl]
        exact okInUnit_zero
      · rw [numerical_eval_list hne h1 h2 hl]
        have hvec : ∀ q ∈ (histogramDensities ((xs.map pyWiden).map PyFloat.val)).map
            (· + epsilon10), 0 ≤ q := by
          intro q hq
          obtain ⟨d, hd, hfx⟩ := (@List.mem_map ℚ ℚ q (· + epsilon10)
            (histogramDensities ((xs.map pyWiden).map PyFloat.val))).mp hq
          rw [← hfx]
          have hdn := histogramDensities_nonneg _ d hd
          have heps : (0 : ℚ) ≤ epsilon10 := by norm_num [epsilon10]
          linarith
        obtain ⟨h, hEq, hnn⟩ := scipyEntropy_nonneg hvec
        rw [hEq]
        exact clamp_div8_mem_unit hnn

theorem search_okInUnitR : ∀ v : PyVal, isValidSearchInput v = true →
    searchScorable v = true → okInUnitR (searchComputeEntropy v) := by
  intro v hv hsc
  match v, hv, hsc with
  | .none, _, _ => exact ⟨0, rfl, le_refl 0, zero_le_one⟩
  | .list xs, hv, hsc =>
    by_cases he : xs.isEmpty = true
    · simp only [searchComputeEntropy]
      rw [if_pos he]
      exact ⟨0, rfl, le_refl 0, zero_le_one⟩
    · have hne : xs.isEmpty = false := by
        revert he
        cases xs.isEmpty <;> simp
      have hv' : xs.all isPyStr = true := hv
      simp only [searchComputeEntropy, hne, Bool.false_eq_true, if_false, hv']
      simp only [not_true, if_false]
      by_cases hd : (xs.map pyStrVal).dedup.length = 1
      · rw [if_pos hd]
        exact ⟨0, rfl, le_refl 0, zero_le_one⟩
      · rw [if_neg hd]
        have hcontent : ∃ x ∈ xs, hasNonWs (pyStrVal x) = true := by
          have hsc' : ((decide ((xs.map pyStrVal).dedup.length = 1)) ||
              xs.any (fun x => hasNonWs (pyStrVal x))) = true := hsc
          rcases (Bool.or_eq_true _ _) ▸ hsc' with h1 | h2
          · exact absurd (of_decide_eq_true h1) hd
          · exact List.any_eq_true.mp h2
        obtain ⟨x, hx, hxc⟩ := hcontent
        have hvoc : (vocabulary (xs.map pyStrVal)).isEmpty = false :=
          vocabulary_isEmpty_false (List.mem_map_of_mem pyStrVal hx) (charWbNgrams_ne_nil hxc)
        rw [if_neg (by rw [hvoc]; simp)]
        apply okInUnitR_min_one
        split
        · apply listMeanR_nonneg
          intro y hy
          obtain ⟨i, _, hfy⟩ := List.mem_map.mp hy
          rw [← hfy]
          exact popStd_nonneg _
        · exact le_refl 0

theorem time_okInUnit : ∀ v : PyVal, isValidTimeInput v = true →
    timesSorted v = true → okInUnit (timeComputeEntropy v) := by
  intro v hv hs
  match v, hv, hs with
  | .none, _, _ => exact okInUnit_zero
  | .list xs, hv, hs =>
    by_cases he : xs.isEmpty = true
    · simp only [timeComputeEntropy]
      rw [if_pos he]
      exact okInUnit_zero
    · have hne : xs.isEmpty = false := by
        revert he
        cases xs.isEmpty <;> simp
      have hp := parseTimes_ok_of_all hv
      rw [timeComputeEntropy_list_eq hne hp]
      by_cases hl : (xs.filterMap (fun x => parseTimestamp (pyStrVal x))).length < 2
      · rw [if_pos hl]
        exact okInUnit_zero
      · rw [if_neg hl]
        by_cases hr : listMax (listDiff (xs.filterMap (fun x => parseTimestamp (pyStrVal x)))) -
            listMin (listDiff (xs.filterMap (fun x => parseTimestamp (pyStrVal x)))) = 0
        · rw [if_pos hr]
          exact okInUnit_zero
        · rw [if_neg hr]
          have hdne : listDiff (xs.filterMap (fun x => parseTimestamp (pyStrVal x))) ≠ [] := by
            apply List.ne_nil_of_length_pos
            rw [listDiff_length]
            omega
          have hrange : 0 < listMax (listDiff (xs.filterMap (fun x => parseTimestamp (pyStrVal x)))) -
              listMin (listDiff (xs.filterMap (fun x => parseTimestamp (pyStrVal x)))) := by
            have hle := listMin_le_listMax hdne
            rcases lt_or_eq_of_le hle with hlt | heq
            · linarith
            · exact absurd (by linarith : listMax _ - listMin _ = 0) hr
          have hsorted : isNondecreasing (xs.filterMap (fun x => parseTimestamp (pyStrVal x)))
              = true := hs
          have hvec : ∀ q ∈ ((listDiff (xs.filterMap (fun x => parseTimestamp (pyStrVal x)))).map
              (fun i => i / (listMax (listDiff (xs.filterMap (fun x => parseTimestamp (pyStrVal x)))) -
                listMin (listDiff (xs.filterMap (fun x => parseTimestamp (pyStrVal x))))))).map
              (· + epsilon10), 0 ≤ q := by
            intro q hq
            obtain ⟨p, hp', hfx⟩ := (@List.mem_map ℚ ℚ q (· + epsilon10) _).mp hq
            obtain ⟨d, hd, hfx2⟩ := (@List.mem_map ℚ ℚ p _ _).mp hp'
            have hdnn := listDiff_nonneg_of_sorted hsorted d hd
            have hq0 : (0 : ℚ) ≤ d / (listMax (listDiff (xs.filterMap
                (fun x => parseTimestamp (pyStrVal x)))) - listMin (listDiff (xs.filterMap
                (fun x => parseTimestamp (pyStrVal x))))) :=
              div_nonneg hdnn (le_of_lt hrange)
            have heps : (0 : ℚ) ≤ epsilon10 := by norm_num [epsilon10]
            rw [← hfx, ← hfx2]
            linarith [hq0]
          obtain ⟨h, hEq, hnn⟩ := scipyEntropy_nonneg hvec
          rw [hEq]
          exact clamp_div8_mem_unit hnn

theorem contextual_okInUnit : ∀ (judge : Option ℚ) (v : PyVal),
    isValidTextInput v = true → judgeInRange judge = true →
    okInUnit (contextualComputeEntropy judge v) := by
  intro judge v hv hj
  match v, hv with
  | .none, _ => exact okInUnit_zero
  | .str s, _ =>
    match judge, hj with
    | Option.none, _ =>
      by_cases hs : s = ""
      · show okInUnit (if s = "" then Except.ok 0 else textComputeEntropy (.str s))
        rw [if_pos hs]
        exact okInUnit_zero
      · show okInUnit (if s = "" then Except.ok 0 else textComputeEntropy (.str s))
        rw [if_neg hs]
        exact text_okInUnit (.str s) rfl
    | some x, hj =>
      have hx : 0 ≤ x ∧ x ≤ 10 := by
        rw [judgeInRange, Bool.and_eq_true, decide_eq_true_eq, decide_eq_true_eq] at hj
        exact hj
      by_cases hs : s = ""
      · show okInUnit (if s = "" then Except.ok 0
          else .ok (((x : ℝ) / 10 : ℝ) : WithBot ℝ))
        rw [if_pos hs]
        exact okInUnit_zero
      · show okInUnit (if s = "" then Except.ok 0
          else .ok (((x : ℝ) / 10 : ℝ) : WithBot ℝ))
        rw [if_neg hs]
        refine ⟨(x : ℝ) / 10, rfl, ?_, ?_⟩
        · have : (0 : ℝ) ≤ (x : ℝ) := by exact_mod_cast hx.1
          positivity
        · rw [div_le_one (by norm_num : (0 : ℝ) < 10)]
          exact_mod_cast hx.2

/-! ## Claim theorems -/

/-- Branch-level description of the spec-modelled raw-Shannon variant once
the conversion loop has succeeded. -/
theorem timeComputeEntropySpecRaw_list_eq {xs : List PyVal} {ts : List ℚ}
    (hne : xs.isEmpty = false) (hp : parseTimes xs = .ok ts) :
    timeComputeEntropySpecRaw (.list xs) =
      (if ts.length < 2 then .ok 0
       else if listMax (listDiff ts) - listMin (listDiff ts) = 0 then .ok 0
       else .ok (min 1 (((rawShannonSum (((listDiff ts).map
           (fun i => i / (listMax (listDiff ts) - listMin (listDiff ts)))).map
           (· + epsilon10)) / 8 : ℝ) : WithBot ℝ)))) := by
  simp only [timeComputeEntropySpecRaw, hne, hp]
  simp

/-- C6 (counterexample): on the timestamps 0 s, 1 s, 3 s the code's score
(scipy's entropy, computed after internal re-normalization, is positive)
differs from the spec's description (the Shannon formula applied to the
un-normalized vector `[1+ε, 2+ε]`, which is negative). -/
theorem C6_counterexample :
    timeComputeEntropy (.list [.str "2023-01-01T00:00:00", .str "2023-01-01T00:00:01",
      .str "2023-01-01T00:00:03"]) ≠
    timeComputeEntropySpecRaw (.list [.str "2023-01-01T00:00:00", .str "2023-01-01T00:00:01",
      .str "2023-01-01T00:00:03"]) := by
  have hp1 : parseTimestamp "2023-01-01T00:00:00" = some ((1672531200 : ℤ) : ℚ) := by decide
  have hp2 : parseTimestamp "2023-01-01T00:00:01" = some ((1672531201 : ℤ) : ℚ) := by decide
  have hp3 : parseTimestamp "2023-01-01T00:00:03" = some ((1672531203 : ℤ) : ℚ) := by decide
  have hp : parseTimes [PyVal.str "2023-01-01T00:00:00", .str "2023-01-01T00:00:01",
      .str "2023-01-01T00:00:03"] =
      .ok [((1672531200 : ℤ) : ℚ), ((1672531201 : ℤ) : ℚ), ((1672531203 : ℤ) : ℚ)] := by
    simp only [parseTimes, hp1, hp2, hp3]
    rfl
  have hdiff : listDiff [((1672531200 : ℤ) : ℚ), ((1672531201 : ℤ) : ℚ),
      ((1672531203 : ℤ) : ℚ)] = [(1 : ℚ), 2] := by
    rw [show listDiff [((1672531200 : ℤ) : ℚ), ((1672531201 : ℤ) : ℚ),
      ((1672531203 : ℤ) : ℚ)] = [((1672531201 : ℤ) : ℚ) - ((1672531200 : ℤ) : ℚ),
      ((1672531203 : ℤ) : ℚ) - ((1672531201 : ℤ) : ℚ)] from rfl]
    norm_num
  have hmax : listMax [(1 : ℚ), 2] = 2 := by decide
  have hmin : listMin [(1 : ℚ), 2] = 1 := by decide
  have hvec : (([(1 : ℚ), 2]).map (fun i => i / ((2 : ℚ) - 1))).map (· + epsilon10) =
      [1 + epsilon10, 2 + epsilon10] := by
    norm_num [List.map_cons, List.map_nil]
  have hpos : ∀ q ∈ ([1 + epsilon10, 2 + epsilon10] : List ℚ), 0 < q := by
    intro q hq
    fin_cases hq <;> norm_num [epsilon10]
  obtain ⟨H, hH, hHpos⟩ := scipyEntropy_pos
    (by norm_num : 2 ≤ ([1 + epsilon10, 2 + epsilon10] : List ℚ).length) hpos
  have hcode : timeComputeEntropy (.list [.str "2023-01-01T00:00:00",
      .str "2023-01-01T00:00:01", .str "2023-01-01T00:00:03"]) =
      .ok ((min 1 (H / 8) : ℝ) : WithBot ℝ) := by
    rw [timeComputeEntropy_list_eq (by decide) hp]
    rw [if_neg (by norm_num : ¬ ([((1672531200 : ℤ) : ℚ), ((1672531201 : ℤ) : ℚ),
      ((1672531203 : ℤ) : ℚ)]).length < 2)]
    rw [hdiff, hmax, hmin]
    rw [if_neg (by norm_num : ¬ ((2 : ℚ) - 1 = 0))]
    rw [hvec, hH, clampScore_coe]
  have ht1 : Real.negMulLog (((1 + epsilon10 : ℚ)) : ℝ) < 0 := by
    apply negMulLog_neg_of_one_lt
    exact_mod_cast (by norm_num [epsilon10] : (1 : ℚ) < 1 + epsilon10)
  have ht2 : Real.negMulLog (((2 + epsilon10 : ℚ)) : ℝ) < 0 := by
    apply negMulLog_neg_of_one_lt
    exact_mod_cast (by norm_num [epsilon10] : (1 : ℚ) < 2 + epsilon10)
  have hraw : rawShannonSum [1 + epsilon10, 2 + epsilon10] < 0 := by
    show (([1 + epsilon10, 2 + epsilon10] : List ℚ).map
      (fun p : ℚ => Real.negMulLog (p : ℝ))).sum < 0
    simp only [List.map_cons, List.map_nil, List.sum_cons, List.sum_nil]
    linarith
  have hspec : timeComputeEntropySpecRaw (.list [.str "2023-01-01T00:00:00",
      .str "2023-01-01T00:00:01", .str "2023-01-01T00:00:03"]) =
      .ok ((min 1 (rawShannonSum [1 + epsilon10, 2 + epsilon10] / 8) : ℝ) : WithBot ℝ) := by
    rw [timeComputeEntropySpecRaw_list_eq (by decide) hp]
    rw [if_neg (by norm_num : ¬ ([((1672531200 : ℤ) : ℚ), ((1672531201 : ℤ) : ℚ),
      ((1672531203 : ℤ) : ℚ)]).length < 2)]
    rw [hdiff, hmax, hmin]
    rw [if_neg (by norm_num : ¬ ((2 : ℚ) - 1 = 0))]
    rw [hvec]
    rw [← WithBot.coe_one, ← WithBot.coe_min]
  rw [hcode, hspec]
  intro heq
  have h1 : (min 1 (H / 8) : ℝ) = min 1 (rawShannonSum [1 + epsilon10, 2 + epsilon10] / 8) := by
    have h2 := Except.ok.inj heq
    exact_mod_cast h2
  have ha : 0 < min 1 (H / 8) := lt_min one_pos (by positivity)
  have hb : min 1 (rawShannonSum [1 + epsilon10, 2 + epsilon10] / 8) ≤
      rawShannonSum [1 + epsilon10, 2 + epsilon10] / 8 := min_le_right _ _
  have hc : rawShannonSum [1 + epsilon10, 2 + epsilon10] / 8 < 0 := by linarith
  linarith

/-- C6 (amended): the epsilon-padded range-normalized interval vector is
passed unchanged to the entropy routine, but `scipy.stats.entropy` itself
first re-normalizes it to sum to 1: on chronologically ordered timestamps
with nonzero interval range, the returned score is
`min(1, rawShannon(normalize(v)) / 8)`, the Shannon formula applied to the
re-normalized vector. -/
theorem C6_entropy_renormalized_amended (xs : List PyVal) (ts : List ℚ)
    (hne : xs.isEmpty = false) (hp : parseTimes xs = .ok ts)
    (hlen : ¬ ts.length < 2) (hsort : isNondecreasing ts = true)
    (hr : listMax (listDiff ts) - listMin (listDiff ts) ≠ 0) :
    timeComputeEntropy (.list xs) =
      .ok ((min 1 (rawShannonSum (normalizePk (((listDiff ts).map
        (fun i => i / (listMax (listDiff ts) - listMin (listDiff ts)))).map
        (· + epsilon10))) / 8) : ℝ) : WithBot ℝ) := by
  rw [timeComputeEntropy_list_eq hne hp, if_neg hlen, if_neg hr]
  have hdne : listDiff ts ≠ [] := by
    apply List.ne_nil_of_length_pos
    rw [listDiff_length]
    omega
  have hrange : 0 < listMax (listDiff ts) - listMin (listDiff ts) := by
    have hle := listMin_le_listMax hdne
    rcases lt_or_eq_of_le hle with hlt | heq
    · linarith
    · exact absurd (by linarith : listMax (listDiff ts) - listMin (listDiff ts) = 0) hr
  have hvec_nonneg : ∀ q ∈ ((listDiff ts).map
      (fun i => i / (listMax (listDiff ts) - listMin (listDiff ts)))).map
      (· + epsilon10), 0 ≤ q := by
    intro q hq
    obtain ⟨p, hp', hfx⟩ := (@List.mem_map ℚ ℚ q (· + epsilon10) _).mp hq
    obtain ⟨d, hd, hfx2⟩ := (@List.mem_map ℚ ℚ p _ _).mp hp'
    have hdnn := listDiff_nonneg_of_sorted hsort d hd
    have hq0 : (0 : ℚ) ≤ d / (listMax (listDiff ts) - listMin (listDiff ts)) :=
      div_nonneg hdnn (le_of_lt hrange)
    have heps : (0 : ℚ) ≤ epsilon10 := by norm_num [epsilon10]
    rw [← hfx, ← hfx2]
    linarith
  have hnorm := normalizePk_nonneg hvec_nonneg
  rw [scipyEntropy, entrSum_coe_of_nonneg (fun q hq => (hnorm q hq).1), clampScore_coe]

/-- Witness for C6 (amended) at the timestamps 0 s, 1 s, 3 s. -/
theorem C6_witness :
    (parseTimes [PyVal.str "2023-01-01T00:00:00", .str "2023-01-01T00:00:01",
        .str "2023-01-01T00:00:03"] =
      .ok [((1672531200 : ℤ) : ℚ), ((1672531201 : ℤ) : ℚ), ((1672531203 : ℤ) : ℚ)]) ∧
    isNondecreasing [((1672531200 : ℤ) : ℚ), ((1672531201 : ℤ) : ℚ),
      ((1672531203 : ℤ) : ℚ)] = true ∧
    timeComputeEntropy (.list [.str "2023-01-01T00:00:00", .str "2023-01-01T00:00:01",
        .str "2023-01-01T00:00:03"]) =
      .ok ((min 1 (rawShannonSum (normalizePk (((listDiff [((1672531200 : ℤ) : ℚ),
        ((1672531201 : ℤ) : ℚ), ((1672531203 : ℤ) : ℚ)]).map
        (fun i => i / (listMax (listDiff [((1672531200 : ℤ) : ℚ), ((1672531201 : ℤ) : ℚ),
          ((1672531203 : ℤ) : ℚ)]) - listMin (listDiff [((1672531200 : ℤ) : ℚ),
          ((1672531201 : ℤ) : ℚ), ((1672531203 : ℤ) : ℚ)])))).map
        (· + epsilon10))) / 8) : ℝ) : WithBot ℝ) := by
  have hp : parseTimes [PyVal.str "2023-01-01T00:00:00", .str "2023-01-01T00:00:01",
      .str "2023-01-01T00:00:03"] =
      .ok [((1672531200 : ℤ) : ℚ), ((1672531201 : ℤ) : ℚ), ((1672531203 : ℤ) : ℚ)] := by
    simp only [parseTimes, show parseTimestamp "2023-01-01T00:00:00" =
        some ((1672531200 : ℤ) : ℚ) from by decide,
      show parseTimestamp "2023-01-01T00:00:01" = some ((1672531201 : ℤ) : ℚ) from by decide,
      show parseTimestamp "2023-01-01T00:00:03" = some ((1672531203 : ℤ) : ℚ) from by decide]
    rfl
  refine ⟨hp, by decide, ?_⟩
  apply C6_entropy_renormalized_amended _ _ (by decide) hp (by norm_num) (by decide)
  rw [show listDiff [((1672531200 : ℤ) : ℚ), ((1672531201 : ℤ) : ℚ),
    ((1672531203 : ℤ) : ℚ)] = [((1672531201 : ℤ) : ℚ) - ((1672531200 : ℤ) : ℚ),
    ((1672531203 : ℤ) : ℚ) - ((1672531201 : ℤ) : ℚ)] from rfl]
  rw [show (((1672531201 : ℤ) : ℚ) - ((1672531200 : ℤ) : ℚ)) = 1 by norm_num,
    show (((1672531203 : ℤ) : ℚ) - ((1672531201 : ℤ) : ℚ)) = 2 by norm_num]
  rw [show listMax [(1 : ℚ), 2] = 2 from by decide,
    show listMin [(1 : ℚ), 2] = 1 from by decide]
  norm_num

/-- C1 (counterexample): the claim "every valid-shape input yields a value
in [0, 1]" fails on the code.  (a) TimeEntropy on parseable timestamps in
non-chronological order produces a negative normalized interval, scipy's
`entr` yields `-inf` (here `⊥`), and `-inf` is returned.  (b)
SearchEngineEntropy on the valid string list `[" ", ""]` reaches the
vectorizer with an empty vocabulary and raises instead of returning a
value.  (c) ContextualEntropy divides the judge's parsed reply by 10
without clamping, so a reply of `99` yields `9.9 > 1`. -/
theorem C1_counterexample :
    (isValidTimeInput (.list [.str "2023-01-03T00:00:00", .str "2023-01-01T00:00:00",
        .str "2023-01-05T00:00:00"]) = true ∧
      timeComputeEntropy (.list [.str "2023-01-03T00:00:00", .str "2023-01-01T00:00:00",
        .str "2023-01-05T00:00:00"]) = .ok ⊥ ∧
      ¬ ((0 : WithBot ℝ) ≤ (⊥ : WithBot ℝ))) ∧
    (isValidSearchInput (.list [.str " ", .str ""]) = true ∧
      searchComputeEntropy (.list [.str " ", .str ""]) =
        .error "empty vocabulary; perhaps the documents only contain stop words") ∧
    (∃ r : ℝ, contextualComputeEntropy (some 99) (.str "a") = .ok ((r : ℝ) : WithBot ℝ) ∧
      1 < r) := by
  refine ⟨⟨by decide, ?_, ?_⟩, ⟨by decide, ?_⟩, ?_⟩
  · have hp1 : parseTimestamp "2023-01-03T00:00:00" = some ((1672704000 : ℤ) : ℚ) := by decide
    have hp2 : parseTimestamp "2023-01-01T00:00:00" = some ((1672531200 : ℤ) : ℚ) := by decide
    have hp3 : parseTimestamp "2023-01-05T00:00:00" = some ((1672876800 : ℤ) : ℚ) := by decide
    have hp : parseTimes [PyVal.str "2023-01-03T00:00:00", .str "2023-01-01T00:00:00",
        .str "2023-01-05T00:00:00"] =
        .ok [((1672704000 : ℤ) : ℚ), ((1672531200 : ℤ) : ℚ), ((1672876800 : ℤ) : ℚ)] := by
      simp only [parseTimes, hp1, hp2, hp3]
      rfl
    rw [timeComputeEntropy_list_eq (by decide) hp]
    rw [if_neg (by norm_num :
      ¬ ([((1672704000 : ℤ) : ℚ), ((1672531200 : ℤ) : ℚ), ((1672876800 : ℤ) : ℚ)]).length < 2)]
    have hdiff : listDiff [((1672704000 : ℤ) : ℚ), ((1672531200 : ℤ) : ℚ),
        ((1672876800 : ℤ) : ℚ)] = [(-172800 : ℚ), 345600] := by
      rw [show listDiff [((1672704000 : ℤ) : ℚ), ((1672531200 : ℤ) : ℚ),
        ((1672876800 : ℤ) : ℚ)] = [((1672531200 : ℤ) : ℚ) - ((1672704000 : ℤ) : ℚ),
        ((1672876800 : ℤ) : ℚ) - ((1672531200 : ℤ) : ℚ)] from rfl]
      norm_num
    rw [hdiff]
    rw [show listMax [(-172800 : ℚ), 345600] = 345600 from by decide]
    rw [show listMin [(-172800 : ℚ), 345600] = -172800 from by decide]
    rw [if_neg (by norm_num : ¬ ((345600 : ℚ) - -172800 = 0))]
    have hvec : (([(-172800 : ℚ), 345600]).map (fun i => i / ((345600 : ℚ) - -172800))).map
        (· + epsilon10) = [-1/3 + epsilon10, 2/3 + epsilon10] := by
      norm_num [List.map_cons, List.map_nil]
    rw [hvec]
    have hscipy : scipyEntropy [-1/3 + epsilon10, 2/3 + epsilon10] = ⊥ := by
      rw [scipyEntropy]
      apply entrSum_bot_of_neg
      refine ⟨(-1/3 + epsilon10) / ([(-1/3 + epsilon10), (2/3 + epsilon10)] : List ℚ).sum,
        List.mem_map_of_mem _ (List.mem_cons_self _ _), ?_⟩
      norm_num [epsilon10, List.sum_cons, List.sum_nil]
    rw [hscipy, WithBot.map_bot]
    rw [min_eq_right (bot_le : (⊥ : WithBot ℝ) ≤ 1)]
  · intro hle
    have h0 := le_bot_iff.mp hle
    rw [← WithBot.coe_zero] at h0
    exact WithBot.coe_ne_bot h0
  · simp only [searchComputeEntropy]
    rw [if_neg (by decide : ¬ ([PyVal.str " ", .str ""] : List PyVal).isEmpty = true)]
    rw [if_neg (show ¬ ¬ ([PyVal.str " ", .str ""] : List PyVal).all isPyStr = true
      from by decide)]
    rw [if_neg (by decide :
      ¬ (([PyVal.str " ", .str ""] : List PyVal).map pyStrVal).dedup.length = 1)]
    rw [if_pos (by decide :
      (vocabulary (([PyVal.str " ", .str ""] : List PyVal).map pyStrVal)).isEmpty = true)]
  · refine ⟨((99 : ℚ) : ℝ) / 10, ?_, ?_⟩
    · show (if "a" = "" then Except.ok 0
        else .ok ((((99 : ℚ) : ℝ) / 10 : ℝ) : WithBot ℝ)) = _
      rw [if_neg (by decide)]
    · rw [show ((99 : ℚ) : ℝ) = 99 by norm_num]
      norm_num

/-- C1 (amended): every strategy returns a value in `[0, 1]` on every
valid-shape input, provided additionally that: timestamps arrive in
nondecreasing chronological order; a search list is either all-identical
or has at least one element with a non-whitespace character; and the
contextual judge's parsed reply (when the external call succeeds) lies in
the instructed 0–10 range. -/
theorem C1_output_range_amended :
    (∀ v : PyVal, isValidTextInput v = true → okInUnit (textComputeEntropy v)) ∧
    (∀ v : PyVal, isValidNumericalInput v = true → okInUnit (numericalComputeEntropy v)) ∧
    (∀ v : PyVal, isValidSearchInput v = true → searchScorable v = true →
      okInUnitR (searchComputeEntropy v)) ∧
    (∀ v : PyVal, isValidTimeInput v = true → timesSorted v = true →
      okInUnit (timeComputeEntropy v)) ∧
    (∀ (judge : Option ℚ) (v : PyVal), isValidTextInput v = true →
      judgeInRange judge = true → okInUnit (contextualComputeEntropy judge v)) :=
  ⟨text_okInUnit, numerical_okInUnit, search_okInUnitR, time_okInUnit, contextual_okInUnit⟩

/-- Witness for C1 (amended) at concrete inputs for each strategy. -/
theorem C1_witness :
    (isValidTextInput (.str "hello") = true ∧ okInUnit (textComputeEntropy (.str "hello"))) ∧
    (isValidNumericalInput (.list [.int 1, .int 2]) = true ∧
      okInUnit (numericalComputeEntropy (.list [.int 1, .int 2]))) ∧
    (isValidSearchInput (.list [.str "alpha", .str "beta"]) = true ∧
      searchScorable (.list [.str "alpha", .str "beta"]) = true ∧
      okInUnitR (searchComputeEntropy (.list [.str "alpha", .str "beta"]))) ∧
    (isValidTimeInput (.list [.str "2023-01-01T00:00:00", .str "2023-01-02T00:00:00",
        .str "2023-01-04T00:00:00"]) = true ∧
      timesSorted (.list [.str "2023-01-01T00:00:00", .str "2023-01-02T00:00:00",
        .str "2023-01-04T00:00:00"]) = true ∧
      okInUnit (timeComputeEntropy (.list [.str "2023-01-01T00:00:00",
        .str "2023-01-02T00:00:00", .str "2023-01-04T00:00:00"]))) ∧
    (judgeInRange (some 7) = true ∧
      okInUnit (contextualComputeEntropy (some 7) (.str "hi"))) :=
  ⟨⟨rfl, C1_output_range_amended.1 (.str "hello") rfl⟩,
   ⟨by decide, C1_output_range_amended.2.1 (.list [.int 1, .int 2]) (by decide)⟩,
   ⟨by decide, by decide,
    C1_output_range_amended.2.2.1 (.list [.str "alpha", .str "beta"]) (by decide) (by decide)⟩,
   ⟨by decide, by decide,
    C1_output_range_amended.2.2.2.1 (.list [.str "2023-01-01T00:00:00",
      .str "2023-01-02T00:00:00", .str "2023-01-04T00:00:00"]) (by decide) (by decide)⟩,
   ⟨by decide, C1_output_range_amended.2.2.2.2 (some 7) (.str "hi") rfl (by decide)⟩⟩

/-- C2: for every strategy (TextEntropy, NumericalEntropy,
SearchEngineEntropy, TimeEntropy, ContextualEntropy), calling
`compute_entropy` with `None` returns exactly `0.0` and raises no error
(for ContextualEntropy, whatever the judge outcome). -/
theorem C2_none_returns_zero :
    textComputeEntropy .none = .ok 0 ∧
    numericalComputeEntropy .none = .ok 0 ∧
    searchComputeEntropy .none = .ok 0 ∧
    timeComputeEntropy .none = .ok 0 ∧
    ∀ judge : Option ℚ, contextualComputeEntropy judge .none = .ok 0 :=
  ⟨rfl, rfl, rfl, rfl, fun _ => rfl⟩

/-- C3: for every non-empty string, if the external judge call or the
parsing of its response raises any exception (`judge = none`),
`ContextualEntropy.compute_entropy` returns exactly the `TextEntropy`
score of the same text and propagates no error; the fallback itself
returns a value, never an error. -/
theorem C3_contextual_fallback (s : String) (h : s ≠ "") :
    ∃ r : WithBot ℝ,
      contextualComputeEntropy Option.none (.str s) = .ok r ∧
      textComputeEntropy (.str s) = .ok r := by
  have ht : textComputeEntropy (.str s) =
      .ok (min 1 ((scipyEntropyBase2 (charProbs s)).map (fun z => z / 8))) := by
    show (if s = "" then Except.ok 0
      else .ok (min 1 ((scipyEntropyBase2 (charProbs s)).map (fun z => z / 8)))) = _
    rw [if_neg h]
  have hc : contextualComputeEntropy Option.none (.str s) = textComputeEntropy (.str s) := by
    show (if s = "" then Except.ok 0 else textComputeEntropy (.str s)) = _
    rw [if_neg h]
  exact ⟨_, hc.trans ht, ht⟩

/-- Witness for C3 at the concrete text `"hello"`. -/
theorem C3_witness :
    "hello" ≠ "" ∧
    ∃ r : WithBot ℝ,
      contextualComputeEntropy Option.none (.str "hello") = .ok r ∧
      textComputeEntropy (.str "hello") = .ok r :=
  ⟨by decide, C3_contextual_fallback "hello" (by decide)⟩

/-- C7: for every string `x` and every non-empty list all of whose
elements equal `x`, `SearchEngineEntropy.compute_entropy` returns exactly
`0.0` (the identical-strings short-circuit). -/
theorem C7_identical_results_zero (x : String) (n : ℕ) (h : 0 < n) :
    searchComputeEntropy (.list (List.replicate n (.str x))) = .ok 0 := by
  have hne : n ≠ 0 := Nat.pos_iff_ne_zero.mp h
  have hempty : (List.replicate n (PyVal.str x)).isEmpty = false := by
    cases n with
    | zero => exact absurd rfl hne
    | succ k => rfl
  have hall : (List.replicate n (PyVal.str x)).all isPyStr = true := by
    rw [List.all_eq_true]
    intro v hv
    rw [List.eq_of_mem_replicate hv]
    rfl
  have hmap : (List.replicate n (PyVal.str x)).map pyStrVal = List.replicate n x := by
    rw [List.map_replicate]
    rfl
  show (if (List.replicate n (PyVal.str x)).isEmpty then Except.ok 0
    else if ¬ (List.replicate n (PyVal.str x)).all isPyStr then
      .error "All elements must be strings"
    else _) = Except.ok 0
  rw [hempty]
  simp only [Bool.false_eq_true, if_false, hall, not_true, if_neg (by trivial : ¬ False)]
  rw [hmap]
  rw [List.replicate_dedup hne]
  rfl

/-- Witness for C7 at `x = "same"`, `n = 3`. -/
theorem C7_witness :
    0 < 3 ∧ searchComputeEntropy (.list (List.replicate 3 (.str "same"))) = .ok 0 :=
  ⟨by decide, C7_identical_results_zero "same" 3 (by decide)⟩

/-- C8 (counterexample): for the non-string token `7`, the factory raises
the fixed message "Strategy type must be a string", which does not contain
the offending token — contradicting the claim that the error message
always includes the token. -/
theorem C8_counterexample :
    getEntropyCalculator (.int 7) = .error "Strategy type must be a string" ∧
    ¬ ("7".toList <:+: "Strategy type must be a string".toList) :=
  ⟨rfl, by decide⟩

/-- C8 (amended): each of the five recognized names maps to the matching
strategy; an unrecognized *string* token raises `InvalidInput` whose
message contains the token; a `None` or non-string token raises
`InvalidInput` with the fixed message "Strategy type must be a string"
(which does not name the token). -/
theorem C8_factory_amended :
    (getEntropyCalculator (.str "text") = .ok .text ∧
     getEntropyCalculator (.str "numerical") = .ok .numerical ∧
     getEntropyCalculator (.str "search") = .ok .search ∧
     getEntropyCalculator (.str "contextual") = .ok .contextual ∧
     getEntropyCalculator (.str "time") = .ok .time) ∧
    (∀ s : String, s ∉ ["text", "numerical", "search", "contextual", "time"] →
      getEntropyCalculator (.str s) = .error ("Invalid Strategy Type: " ++ s) ∧
      s.toList <:+: ("Invalid Strategy Type: " ++ s).toList) ∧
    (∀ v : PyVal, (∀ s : String, v ≠ .str s) →
      getEntropyCalculator v = .error "Strategy type must be a string") := by
  refine ⟨⟨rfl, rfl, rfl, rfl, rfl⟩, ?_, ?_⟩
  · intro s hs
    simp only [List.mem_cons, List.mem_singleton, not_or] at hs
    obtain ⟨h1, h2, h3, h4, h5, _⟩ := hs
    constructor
    · show (if s = "text" then Except.ok StrategyTag.text
        else if s = "numerical" then .ok .numerical
        else if s = "search" then .ok .search
        else if s = "contextual" then .ok .contextual
        else if s = "time" then .ok .time
        else .error ("Invalid Strategy Type: " ++ s)) = _
      rw [if_neg h1, if_neg h2, if_neg h3, if_neg h4, if_neg h5]
    · have : ("Invalid Strategy Type: " ++ s).toList =
          "Invalid Strategy Type: ".toList ++ s.toList := by
        rfl
      rw [this]
      exact (List.suffix_append _ _).isInfix
  · intro v hv
    match v with
    | .none => rfl
    | .bool _ => rfl
    | .int _ => rfl
    | .float _ => rfl
    | .list _ => rfl
    | .str s => exact absurd rfl (hv s)

/-- Witness for C8 at the unknown string token `"bogus"` and the
non-string token `7`. -/
theorem C8_witness :
    getEntropyCalculator (.str "time") = .ok .time ∧
    (getEntropyCalculator (.str "bogus") = .error ("Invalid Strategy Type: " ++ "bogus") ∧
      "bogus".toList <:+: ("Invalid Strategy Type: " ++ "bogus").toList) ∧
    getEntropyCalculator (.int 7) = .error "Strategy type must be a string" :=
  ⟨C8_factory_amended.1.2.2.2.2,
   C8_factory_amended.2.1 "bogus" (by decide),
   C8_factory_amended.2.2 (.int 7) (fun s h => PyVal.noConfusion h)⟩

/-- C4: for every input whose dynamic type does not match the strategy's
expected shape (with Python booleans counting as numbers, and finiteness
and ISO-parseability part of the shape), the strategy raises an
`InvalidInput` (`ValueError`) error rather than coercing the input. -/
theorem C4_wrong_shape_rejected (v : PyVal) :
    (isValidTextInput v = false → ∃ m, textComputeEntropy v = .error m) ∧
    (isValidNumericalInput v = false → ∃ m, numericalComputeEntropy v = .error m) ∧
    (isValidSearchInput v = false → ∃ m, searchComputeEntropy v = .error m) ∧
    (isValidTimeInput v = false → ∃ m, timeComputeEntropy v = .error m) ∧
    (∀ judge : Option ℚ, isValidTextInput v = false →
      ∃ m, contextualComputeEntropy judge v = .error m) := by
  refine ⟨?_, ?_, ?_, ?_, ?_⟩
  · intro hv
    match v, hv with
    | .none, hv => simp [isValidTextInput] at hv
    | .str _, hv => simp [isValidTextInput] at hv
    | .bool _, _ => exact ⟨_, rfl⟩
    | .int _, _ => exact ⟨_, rfl⟩
    | .float _, _ => exact ⟨_, rfl⟩
    | .list _, _ => exact ⟨_, rfl⟩
  · intro hv
    match v, hv with
    | .none, hv => simp [isValidNumericalInput] at hv
    | .str _, _ => exact ⟨_, rfl⟩
    | .bool _, _ => exact ⟨_, rfl⟩
    | .int _, _ => exact ⟨_, rfl⟩
    | .float _, _ => exact ⟨_, rfl⟩
    | .list xs, hv =>
      obtain ⟨x, hx, hbad⟩ := List.all_eq_false.mp hv
      have hne : xs.isEmpty = false := by
        cases xs with
        | nil => cases hx
        | cons _ _ => rfl
      simp only [numericalComputeEntropy, hne, Bool.false_eq_true, if_false]
      cases hnum : xs.all isPyNumber with
      | false => exact ⟨"All elements must be numbers", by simp⟩
      | true =>
        have hxnum : isPyNumber x = true := List.all_eq_true.mp hnum x hx
        have hxfin : (pyWiden x).isFinite = false := by
          rw [hxnum] at hbad
          simpa using hbad
        have hfs : (xs.map pyWiden).all PyFloat.isFinite = false :=
          List.all_eq_false.mpr
            ⟨pyWiden x, List.mem_map_of_mem _ hx, by rw [hxfin]; simp⟩
        rw [hfs]
        exact ⟨"Input contains non-finite values", by simp⟩
  · intro hv
    match v, hv with
    | .none, hv => simp [isValidSearchInput] at hv
    | .str _, _ => exact ⟨_, rfl⟩
    | .bool _, _ => exact ⟨_, rfl⟩
    | .int _, _ => exact ⟨_, rfl⟩
    | .float _, _ => exact ⟨_, rfl⟩
    | .list xs, hv =>
      obtain ⟨x, hx, hbad⟩ := List.all_eq_false.mp hv
      have hne : xs.isEmpty = false := by
        cases xs with
        | nil => cases hx
        | cons _ _ => rfl
      have hall : xs.all isPyStr = false :=
        List.all_eq_false.mpr ⟨x, hx, hbad⟩
      simp only [searchComputeEntropy, hne, hall, Bool.false_eq_true, if_false]
      exact ⟨"All elements must be strings", by simp⟩

  · intro hv
    match v, hv with
    | .none, hv => simp [isValidTimeInput] at hv
    | .str _, _ => exact ⟨_, rfl⟩
    | .bool _, _ => exact ⟨_, rfl⟩
    | .int _, _ => exact ⟨_, rfl⟩
    | .float _, _ => exact ⟨_, rfl⟩
    | .list xs, hv =>
      obtain ⟨x, hx, hbad⟩ := List.all_eq_false.mp hv
      have hne : xs.isEmpty = false := by
        cases xs with
        | nil => cases hx
        | cons _ _ => rfl
      obtain ⟨m, hm⟩ := parseTimes_error_of_bad ⟨x, hx, hbad⟩
      refine ⟨m, ?_⟩
      simp only [timeComputeEntropy, hne, hm, Bool.false_eq_true, if_false]
  · intro judge hv
    match v, hv with
    | .none, hv => simp [isValidTextInput] at hv
    | .str _, hv => simp [isValidTextInput] at hv
    | .bool _, _ => exact ⟨_, rfl⟩
    | .int _, _ => exact ⟨_, rfl⟩
    | .float _, _ => exact ⟨_, rfl⟩
    | .list _, _ => exact ⟨_, rfl⟩

/-- Witness for C4 at the concrete wrong-shape input `123` (an integer),
which every strategy rejects. -/
theorem C4_witness :
    isValidTextInput (.int 123) = false ∧
    (∃ m, textComputeEntropy (.int 123) = .error m) ∧
    (∃ m, numericalComputeEntropy (.int 123) = .error m) ∧
    (∃ m, searchComputeEntropy (.int 123) = .error m) ∧
    (∃ m, timeComputeEntropy (.int 123) = .error m) ∧
    (∃ m, contextualComputeEntropy (some 5) (.int 123) = .error m) :=
  ⟨rfl,
   (C4_wrong_shape_rejected (.int 123)).1 rfl,
   (C4_wrong_shape_rejected (.int 123)).2.1 rfl,
   (C4_wrong_shape_rejected (.int 123)).2.2.1 rfl,
   (C4_wrong_shape_rejected (.int 123)).2.2.2.1 rfl,
   (C4_wrong_shape_rejected (.int 123)).2.2.2.2 (some 5) rfl⟩

/-- C5: for parseable timestamp lists, fewer than two elements give `0.0`;
zero interval range (all successive intervals equal) gives exactly `0.0`
without entering the entropy computation; in particular exactly two
timestamps give `0.0`. -/
theorem C5_time_degenerate (xs : List String)
    (h : ∀ s ∈ xs, (parseTimestamp s).isSome = true) :
    (xs.length < 2 → timeComputeEntropy (.list (xs.map PyVal.str)) = .ok 0) ∧
    (∀ ts : List ℚ, parseTimes (xs.map PyVal.str) = .ok ts →
      listMax (listDiff ts) - listMin (listDiff ts) = 0 →
      timeComputeEntropy (.list (xs.map PyVal.str)) = .ok 0) ∧
    (xs.length = 2 → timeComputeEntropy (.list (xs.map PyVal.str)) = .ok 0) := by
  have hp := parseTimes_map_str h
  have hlen0 : (xs.filterMap parseTimestamp).length = xs.length := by
    rw [parseTimes_ok_length hp, List.length_map]
  have part2 : ∀ ts : List ℚ, parseTimes (xs.map PyVal.str) = .ok ts →
      listMax (listDiff ts) - listMin (listDiff ts) = 0 →
      timeComputeEntropy (.list (xs.map PyVal.str)) = .ok 0 := by
    intro ts hts hzero
    cases xs with
    | nil => rfl
    | cons s rest =>
      have hne : (((s :: rest).map PyVal.str)).isEmpty = false := rfl
      rw [timeComputeEntropy_list_eq hne hts]
      by_cases hl : ts.length < 2
      · rw [if_pos hl]
      · rw [if_neg hl, if_pos hzero]
  refine ⟨?_, part2, ?_⟩
  · intro hlen
    cases xs with
    | nil => rfl
    | cons s rest =>
      have hne : (((s :: rest).map PyVal.str)).isEmpty = false := rfl
      rw [timeComputeEntropy_list_eq hne hp]
      rw [if_pos (by rw [hlen0]; exact hlen)]
  · intro h2
    apply part2 _ hp
    have : (xs.filterMap parseTimestamp).length = 2 := by rw [hlen0, h2]
    match xs.filterMap parseTimestamp, this with
    | [a, b], _ =>
      show listMax [b - a] - listMin [b - a] = 0
      show (b - a) - (b - a) = 0
      ring

/-- Witness for C5 at the concrete two-element list from the spec. -/
theorem C5_witness :
    (∀ s ∈ ["2023-01-01T00:00:00", "2023-01-02T00:00:00"],
      (parseTimestamp s).isSome = true) ∧
    timeComputeEntropy
      (.list (["2023-01-01T00:00:00", "2023-01-02T00:00:00"].map PyVal.str)) = .ok 0 :=
  ⟨by decide,
   (C5_time_degenerate ["2023-01-01T00:00:00", "2023-01-02T00:00:00"]
     (by decide)).2.2 rfl⟩

/-- C9: the monotonic-diversity orderings hold:
`TextEntropy("aaaa") < TextEntropy("abcd")`,
`NumericalEntropy([1,1,1]) < NumericalEntropy([1,2,3])`, and
`SearchEngineEntropy(["same","same"]) <
 SearchEngineEntropy(["alpha","beta distinct"])`. -/
theorem C9_monotonic_diversity :
    (∃ a b : WithBot ℝ, textComputeEntropy (.str "aaaa") = .ok a ∧
      textComputeEntropy (.str "abcd") = .ok b ∧ a < b) ∧
    (∃ a b : WithBot ℝ, numericalComputeEntropy (.list [.int 1, .int 1, .int 1]) = .ok a ∧
      numericalComputeEntropy (.list [.int 1, .int 2, .int 3]) = .ok b ∧ a < b) ∧
    (∃ a b : ℝ, searchComputeEntropy (.list [.str "same", .str "same"]) = .ok a ∧
      searchComputeEntropy (.list [.str "alpha", .str "beta distinct"]) = .ok b ∧ a < b) := by
  refine ⟨?_, ?_, ?_⟩
  · obtain ⟨b, hb, hbpos⟩ := textEntropy_abcd_pos
    exact ⟨_, _, textEntropy_aaaa, hb, WithBot.coe_lt_coe.mpr hbpos⟩
  · obtain ⟨b, hb, hbpos⟩ := numericalEntropy_123_pos
    exact ⟨_, _, numericalEntropy_111, hb, WithBot.coe_lt_coe.mpr hbpos⟩
  · obtain ⟨b, hb, hbpos⟩ := searchEntropy_alpha_beta_pos
    exact ⟨0, b, searchEntropy_same_same, hb, hbpos⟩

/-- C10: `NumericalEntropy.compute_entropy` accepts Python booleans as
numbers: on a list of booleans the element-type check passes, `True`/`False`
are widened to `1.0`/`0.0` (the result coincides with the one on the
widened float list), and a score is returned rather than an
`InvalidInput` error. -/
theorem C10_bool_accepted (bs : List Bool) :
    (bs.map PyVal.bool).all isPyNumber = true ∧
    numericalComputeEntropy (.list (bs.map PyVal.bool)) =
      numericalComputeEntropy
        (.list (bs.map (fun b => PyVal.float (.finite (if b then 1 else 0))))) ∧
    ∃ r : WithBot ℝ, numericalComputeEntropy (.list (bs.map PyVal.bool)) = .ok r := by
  have hall : (bs.map PyVal.bool).all isPyNumber = true := by
    rw [List.all_eq_true]
    intro v hv
    obtain ⟨b, _, hb⟩ := (@List.mem_map Bool PyVal v PyVal.bool bs).mp hv
    rw [← hb]
    rfl
  have hally : (bs.map (fun b => PyVal.float (.finite (if b then 1 else 0)))).all
      isPyNumber = true := by
    rw [List.all_eq_true]
    intro v hv
    obtain ⟨b, _, hb⟩ :=
      (@List.mem_map Bool PyVal v (fun b => PyVal.float (.finite (if b then 1 else 0))) bs).mp hv
    rw [← hb]
    rfl
  have hw : (bs.map PyVal.bool).map pyWiden =
      (bs.map (fun b => PyVal.float (.finite (if b then 1 else 0)))).map pyWiden := by
    rw [List.map_map, List.map_map]
    exact rfl
  have hfin : ((bs.map PyVal.bool).map pyWiden).all PyFloat.isFinite = true := by
    rw [List.map_map]
    rw [List.all_eq_true]
    intro f hf
    obtain ⟨b, _, hb⟩ :=
      (@List.mem_map Bool PyFloat f (pyWiden ∘ PyVal.bool) bs).mp hf
    rw [← hb]
    cases b <;> rfl
  refine ⟨hall, ?_, numericalComputeEntropy_isOk hall hfin⟩
  exact numericalComputeEntropy_congr_widen hall hally
    (by rw [List.length_map, List.length_map]) hw

end EntropyAnalyzer
